import Mathlib

/-!
A shallow embedding of the core of `filemap` (aaronmdjones/filemap): the
inode/extent graph builder and fragmentation classifier of `src/extents.c`,
the directory walker of `src/dirents.c`, the comparators of `src/sort.c`,
the aggregate statistics of `src/print.c`, and the driver of `src/main.c`.

Machine integers (`uint64_t`) are modelled as `Nat`, with an explicit
`% 2 ^ 64` at the one place the C code can overflow (the
`prev_extoff + prev_extlen` sum in the fragmentation classifier).
C strings are modelled as `List Nat` (their byte sequences up to the
terminating NUL).  The uthash hash tables (`fm_extents`, `fm_inodes`) are
modelled as association lists in insertion order: `HASH_FIND` is a linear
key lookup and `HASH_ADD` appends.  Failure (`return false`) is modelled
by an explicit `ok : Bool` in each result, keeping whatever partial state
mutations the C code had already performed.
-/

namespace Filemap

/-! ### Constants from `src/filemap.h` and `linux/fiemap.h` -/

def FM_IFLAGS_FRAGMENTED : Nat := 0x01

def FM_IFLAGS_UNORDERED : Nat := 0x02

def FM_IFLAGS_UNALIGNED : Nat := 0x04

def FIEMAP_EXTENT_LAST : Nat := 0x1

/-- `2 ^ 64`: the modulus of `uint64_t` arithmetic. -/
def U64 : Nat := 2 ^ 64

/-! ### Data model (`struct fiemap_extent`, `struct stat`, `src/filemap.h`) -/

/-- One raw extent as reported by the kernel (`struct fiemap_extent`):
its physical byte offset, byte length and flag bitmask. -/
structure FiemapExtent where
  fe_physical : Nat
  fe_length : Nat
  fe_flags : Nat
deriving DecidableEq, Inhabited

/-- The `S_IFMT` file-type bits of `st_mode` that the program inspects:
directory, regular file, or anything else. -/
inductive FileMode where
  | dir : FileMode
  | reg : FileMode
  | other : FileMode
deriving DecidableEq, Inhabited

/-- The fields of `struct stat` that the program reads. -/
structure Stat where
  st_ino : Nat
  st_dev : Nat
  st_mode : FileMode
  st_size : Int
  st_blksize : Nat
deriving DecidableEq, Inhabited

/-- `struct fm_extent`: a tracked extent.  The C back-pointer
`struct fm_inode *inode` is modelled by the owning inode's key `inum`. -/
structure FmExtent where
  off : Nat
  len : Nat
  pos : Nat
  flags : Nat
  inum : Nat
deriving DecidableEq, Inhabited

/-- `struct fm_inode`: a tracked inode.  `names` is the `struct fm_name`
doubly-linked list, in list order (head first). -/
structure FmInode where
  inum : Nat
  sb : Stat
  names : List (List Nat)
  extcount : Nat
  namecount : Nat
  flags : Nat
deriving DecidableEq, Inhabited

/-- The mutable globals of `src/main.c` and the static scratch-buffer
bookkeeping of `src/extents.c` (`fmh_extent_count`). -/
structure FmState where
  fmhExtentCount : Nat
  fmExtents : List FmExtent
  fmInodes : List FmInode
  fmExtentCount : Nat
  fmInodeCount : Nat
  fmFileCount : Nat
  fmDirCount : Nat
  fmIntegralBlksz : Bool
deriving DecidableEq, Inhabited

/-- The initial values of the globals (`src/main.c` lines 34-42,
`src/extents.c` line 30). -/
def initialState : FmState :=
  { fmhExtentCount := 0
    fmExtents := []
    fmInodes := []
    fmExtentCount := 0
    fmInodeCount := 0
    fmFileCount := 0
    fmDirCount := 0
    fmIntegralBlksz := true }

/-- Modelled from the spec: uthash's `HASH_FIND` on the global
`fm_extents` table keyed by physical offset (the uthash header is a
vendored dependency, not under `src/`); modelled as a linear lookup in
the association list. -/
def findExtent (l : List FmExtent) (off : Nat) : Option FmExtent :=
  l.find? (fun e => e.off == off)

/-- Modelled from the spec: uthash's `HASH_FIND` on the global
`fm_inodes` table keyed by inode number; modelled as a linear lookup. -/
def findInode (l : List FmInode) (k : Nat) : Option FmInode :=
  l.find? (fun i => i.inum == k)

/-- In-place mutation through the pointer obtained by `HASH_FIND`:
update the (unique) entry with key `k`. -/
def updInode (l : List FmInode) (k : Nat) (f : FmInode → FmInode) : List FmInode :=
  l.map (fun i => if i.inum == k then f i else i)

/-! ### `strcmp` and the name list (`src/sort.c` lines 166-178, utlist) -/

/-- Modelled from the spec: libc `strcmp` (not under `src/`), clamped to
the three-way sign as `fm_sortby_filename_cb` does: lexicographic
byte-wise comparison, a string that is a proper prefix of another
compares less (its NUL terminator is smaller than any further byte). -/
def strcmp : List Nat → List Nat → Int
  | [], [] => 0
  | [], _ :: _ => -1
  | _ :: _, [] => 1
  | a :: as, b :: bs => if a < b then -1 else if b < a then 1 else strcmp as bs

/-- Ordered insertion of one name into a list kept sorted by `strcmp`. -/
def insertName (nm : List Nat) : List (List Nat) → List (List Nat)
  | [] => [nm]
  | x :: xs => if strcmp nm x ≤ 0 then nm :: x :: xs else x :: insertName nm xs

/-- Modelled from the spec: utlist's `DL_SORT` (vendored header, not
under `src/`) re-sorts the doubly-linked name list with
`fm_sortby_filename_cb`, i.e. by `strcmp`; modelled as an insertion
sort, which satisfies the same sorted-permutation contract. -/
def nameSort : List (List Nat) → List (List Nat)
  | [] => []
  | x :: xs => insertName x (nameSort xs)

/-- The name written by `snprintf` in `fm_scan_extents` (lines 180-181):
the absolute path, with a trailing slash appended for directories other
than `/` (byte 47). -/
def buildName (abspath : List Nat) (m : FileMode) : List Nat :=
  abspath ++ (if m = FileMode.dir ∧ abspath ≠ [47] then [47] else [])

/-- The `fi->namecount++; DL_APPEND; DL_SORT` step of `fm_scan_extents`
(lines 183-187) applied to one inode. -/
def nameAdd (nm : List Nat) (fi : FmInode) : FmInode :=
  { fi with
      namecount := fi.namecount + 1
      names := nameSort (fi.names ++ [nm]) }

/-! ### The extent scanner (`src/extents.c`) -/

/-- Result of `fm_scan_extents`: the C return value `ok`, the global
state (with whatever mutations happened before a failure), whether
`close(fd)` was executed before returning, and (ghost instrumentation)
whether the kernel extent query was performed. -/
structure ScanRes where
  ok : Bool
  st : FmState
  closedFd : Bool
  queried : Bool
deriving DecidableEq, Inhabited

/-- Partial results of the per-extent loop of `fm_scan_extents`
(lines 97-153): loop success, the global extent table, the new inode's
`flags` and `extcount`, and the global `fm_integral_blksz`. -/
structure LoopRes where
  ok : Bool
  fmExtents : List FmExtent
  flags : Nat
  extcount : Nat
  integral : Bool
deriving DecidableEq, Inhabited

/-- The per-extent loop of `fm_scan_extents` (lines 97-153).  `prev` is
`fm->fm_extents[i - 1]`'s offset and length (`none` at `i = 0`),
`mapped` is `fm->fm_mapped_extents`, `i` the loop index, `ge` the global
extent table, `flags`/`extcount` the fields of the inode being built and
`integral` the global `fm_integral_blksz`.  Each iteration: duplicate
physical-offset lookup (fail), missing last-extent marker on the final
extent (fail), fragmentation/order classification against the immediate
predecessor, block-size alignment check, then `HASH_ADD` (append). -/
def scanLoop (blksz inum mapped : Nat) (prev : Option (Nat × Nat)) (i : Nat) :
    List FiemapExtent → List FmExtent → Nat → Nat → Bool → LoopRes
  | [], ge, flags, extcount, integral => ⟨true, ge, flags, extcount, integral⟩
  | e :: rest, ge, flags, extcount, integral =>
    let off := e.fe_physical
    let len := e.fe_length
    let flg := e.fe_flags
    let pos := i + 1
    match findExtent ge off with
    | some _ => ⟨false, ge, flags, extcount, integral⟩
    | none =>
      if pos = mapped ∧ flg &&& FIEMAP_EXTENT_LAST = 0 then
        ⟨false, ge, flags, extcount, integral⟩
      else
        let flags1 :=
          match prev with
          | none => flags
          | some (poff, plen) =>
            let fa := if off > (poff + plen) % U64 then flags ||| FM_IFLAGS_FRAGMENTED else flags
            if off < poff then fa ||| (FM_IFLAGS_FRAGMENTED ||| FM_IFLAGS_UNORDERED) else fa
        let flags2 :=
          if off % blksz ≠ 0 ∨ len % blksz ≠ 0 then flags1 ||| FM_IFLAGS_UNALIGNED else flags1
        let integral2 := if off % blksz ≠ 0 ∨ len % blksz ≠ 0 then false else integral
        let fe : FmExtent := ⟨off, len, pos, flg, inum⟩
        scanLoop blksz inum mapped (some (off, len)) (i + 1) rest (ge ++ [fe]) flags2
          (extcount + 1) integral2

/-- The scratch-buffer growth of `fm_scan_extents` (lines 61-64): if the
previous capacity is at most the probe-reported mapped-extent count, the
new capacity is `mapped + ((mapped + 256) % 256)`; otherwise the buffer
is kept. -/
def growCap (old mapped : Nat) : Nat :=
  if old ≤ mapped then mapped + ((mapped + 256) % 256) else old

/-- The shared tail of `fm_scan_extents` (lines 165-191): allocate the
`fm_name`, bump the file or directory counter, build the stored name,
bump `namecount`, append and re-sort the name list, and `close(fd)`. -/
def finishName (st : FmState) (sb : Stat) (abspath : List Nat) (queried : Bool) : ScanRes :=
  let st1 :=
    if sb.st_mode = FileMode.dir then { st with fmDirCount := st.fmDirCount + 1 }
    else { st with fmFileCount := st.fmFileCount + 1 }
  let nm := buildName abspath sb.st_mode
  let st2 := { st1 with fmInodes := updInode st1.fmInodes sb.st_ino (nameAdd nm) }
  ⟨true, st2, true, queried⟩

/-- The first-time branch of `fm_scan_extents` (lines 45-163): the FIEMAP
probe reports `disk.length` mapped extents, the scratch buffer grows per
`growCap`, the second FIEMAP call maps `min disk.length cap` extents
(the kernel fills at most the buffer's capacity); a mapped count equal
to the capacity is a truncation failure; otherwise the per-extent loop
runs, and on success the new inode is installed and the global counters
updated, followed by the shared name-append tail. -/
def fm_scan_fresh (blksz : Nat) (st : FmState) (sb : Stat) (abspath : List Nat)
    (disk : List FiemapExtent) : ScanRes :=
  let cap := growCap st.fmhExtentCount disk.length
  let st1 := { st with fmhExtentCount := cap }
  let mapped := min disk.length cap
  if mapped = cap then ⟨false, st1, false, true⟩
  else
    let lres := scanLoop blksz sb.st_ino mapped none 0 (disk.take mapped) st1.fmExtents 0 0
      st1.fmIntegralBlksz
    let st2 := { st1 with fmExtents := lres.fmExtents, fmIntegralBlksz := lres.integral }
    if lres.ok then
      let fi : FmInode :=
        { inum := sb.st_ino
          sb := sb
          names := []
          extcount := lres.extcount
          namecount := 0
          flags := lres.flags }
      let st3 := { st2 with
          fmInodes := st2.fmInodes ++ [fi]
          fmExtentCount := st2.fmExtentCount + lres.extcount
          fmInodeCount := st2.fmInodeCount + 1 }
      finishName st3 sb abspath true
    else ⟨false, st2, false, true⟩

/-- `fm_scan_extents` (`src/extents.c` lines 34-192).  `disk` is the
file's true extent list, which the modelled kernel reports through the
two FIEMAP calls.  An inode already present skips the extent query and
only appends a name; a new inode runs the query and the per-extent
loop. -/
def fm_scan_extents (blksz : Nat) (st : FmState) (sb : Stat) (abspath : List Nat)
    (disk : List FiemapExtent) : ScanRes :=
  match findInode st.fmInodes sb.st_ino with
  | some _ => finishName st sb abspath false
  | none => fm_scan_fresh blksz st sb abspath disk

/-! ### The allocation-refined scanner

`fm_scan_extents` has four allocation sites whose failure it turns into
`return false`: the scratch-buffer `realloc` (line 66, attempted only
when the buffer grows), the `calloc` of the new `fm_inode` (line 91),
the `calloc` of each `fm_extent` (line 113, inside the loop, after the
duplicate lookup and before the last-extent check), and the `calloc`
of the `fm_name` (line 165, executed on both the fresh and the
hardlink path, before the file/directory counter bump).  The refined
scanner below makes those outcomes explicit through an environment
oracle; with the all-success oracle it coincides with
`fm_scan_extents` (proved below as `fm_scan_extents_alloc_allocOk`). -/

/-- Environment-decided allocation outcomes for one `fm_scan_extents`
call: whether the scratch-buffer `realloc` fails, whether the
`fm_inode` `calloc` fails, the first loop index whose `fm_extent`
`calloc` fails (if any), and whether the `fm_name` `calloc` fails. -/
structure AllocOracle where
  reallocFail : Bool
  fiFail : Bool
  feFailAt : Option Nat
  fnFail : Bool
deriving DecidableEq, Inhabited

/-- The oracle on which every allocation succeeds. -/
def allocOk : AllocOracle := ⟨false, false, none, false⟩

/-- `scanLoop` refined with the per-extent `calloc` outcome (line 113):
the allocation-failure check sits between the duplicate lookup and the
missing-last-extent check, as in the C. -/
def scanLoopAlloc (blksz inum mapped : Nat) (feFailAt : Option Nat) (prev : Option (Nat × Nat))
    (i : Nat) : List FiemapExtent → List FmExtent → Nat → Nat → Bool → LoopRes
  | [], ge, flags, extcount, integral => ⟨true, ge, flags, extcount, integral⟩
  | e :: rest, ge, flags, extcount, integral =>
    let off := e.fe_physical
    let len := e.fe_length
    let flg := e.fe_flags
    let pos := i + 1
    match findExtent ge off with
    | some _ => ⟨false, ge, flags, extcount, integral⟩
    | none =>
      if feFailAt = some i then
        ⟨false, ge, flags, extcount, integral⟩
      else if pos = mapped ∧ flg &&& FIEMAP_EXTENT_LAST = 0 then
        ⟨false, ge, flags, extcount, integral⟩
      else
        let flags1 :=
          match prev with
          | none => flags
          | some (poff, plen) =>
            let fa := if off > (poff + plen) % U64 then flags ||| FM_IFLAGS_FRAGMENTED else flags
            if off < poff then fa ||| (FM_IFLAGS_FRAGMENTED ||| FM_IFLAGS_UNORDERED) else fa
        let flags2 :=
          if off % blksz ≠ 0 ∨ len % blksz ≠ 0 then flags1 ||| FM_IFLAGS_UNALIGNED else flags1
        let integral2 := if off % blksz ≠ 0 ∨ len % blksz ≠ 0 then false else integral
        let fe : FmExtent := ⟨off, len, pos, flg, inum⟩
        scanLoopAlloc blksz inum mapped feFailAt (some (off, len)) (i + 1) rest (ge ++ [fe])
          flags2 (extcount + 1) integral2

/-- `fm_scan_fresh` refined with the allocation outcomes, in source
order: growth and `realloc` (failure keeps the already-updated
capacity, line 63), second FIEMAP call, truncation check, `fm_inode`
`calloc`, the loop, installation, then — shared with the hardlink
path — the `fm_name` `calloc` before the counter bump. -/
def fm_scan_fresh_alloc (blksz : Nat) (o : AllocOracle) (st : FmState) (sb : Stat)
    (abspath : List Nat) (disk : List FiemapExtent) : ScanRes :=
  let cap := growCap st.fmhExtentCount disk.length
  let st1 := { st with fmhExtentCount := cap }
  if st.fmhExtentCount ≤ disk.length ∧ o.reallocFail then ⟨false, st1, false, true⟩
  else
    let mapped := min disk.length cap
    if mapped = cap then ⟨false, st1, false, true⟩
    else if o.fiFail then ⟨false, st1, false, true⟩
    else
      let lres := scanLoopAlloc blksz sb.st_ino mapped o.feFailAt none 0 (disk.take mapped)
        st1.fmExtents 0 0 st1.fmIntegralBlksz
      let st2 := { st1 with fmExtents := lres.fmExtents, fmIntegralBlksz := lres.integral }
      if lres.ok then
        let fi : FmInode :=
          { inum := sb.st_ino
            sb := sb
            names := []
            extcount := lres.extcount
            namecount := 0
            flags := lres.flags }
        let st3 := { st2 with
            fmInodes := st2.fmInodes ++ [fi]
            fmExtentCount := st2.fmExtentCount + lres.extcount
            fmInodeCount := st2.fmInodeCount + 1 }
        if o.fnFail then ⟨false, st3, false, true⟩ else finishName st3 sb abspath true
      else ⟨false, st2, false, true⟩

/-- `fm_scan_extents` refined with the allocation outcomes.  On the
hardlink path the only allocation is the `fm_name` `calloc`. -/
def fm_scan_extents_alloc (blksz : Nat) (o : AllocOracle) (st : FmState) (sb : Stat)
    (abspath : List Nat) (disk : List FiemapExtent) : ScanRes :=
  match findInode st.fmInodes sb.st_ino with
  | some _ => if o.fnFail then ⟨false, st, false, false⟩ else finishName st sb abspath false
  | none => fm_scan_fresh_alloc blksz o st sb abspath disk

/-! ### Sort comparators (`src/sort.c`) -/

/-- `enum fm_sort_method` (`src/filemap.h`). -/
inductive SortMethod where
  | extentOffset : SortMethod
  | extentLength : SortMethod
  | inodeExtentCount : SortMethod
  | inodeLinkCount : SortMethod
  | inodeNumber : SortMethod
  | filesize : SortMethod
  | filename : SortMethod
deriving DecidableEq, Inhabited

/-- `enum fm_sort_direction` (`src/filemap.h`). -/
inductive SortDir where
  | ascending : SortDir
  | descending : SortDir
deriving DecidableEq, Inhabited

/-- An argument to `fm_sortby_extent_cb`: a `struct fm_extent` together
with the `struct fm_inode` its `inode` pointer refers to. -/
def ExtRef : Type := FmExtent × FmInode

def fm_sortby_extoff_cb (a b : ExtRef) : Int :=
  if a.1.off < b.1.off then -1 else if a.1.off > b.1.off then 1 else 0

def fm_sortby_extlen_cb (a b : ExtRef) : Int :=
  if a.1.len < b.1.len then -1 else if a.1.len > b.1.len then 1 else 0

def fm_sortby_extcnt_cb (a b : ExtRef) : Int :=
  if a.2.extcount < b.2.extcount then -1 else if a.2.extcount > b.2.extcount then 1 else 0

def fm_sortby_inofcnt_cb (a b : ExtRef) : Int :=
  if a.2.namecount < b.2.namecount then -1 else if a.2.namecount > b.2.namecount then 1 else 0

def fm_sortby_inonum_cb (a b : ExtRef) : Int :=
  if a.2.inum < b.2.inum then -1 else if a.2.inum > b.2.inum then 1 else 0

def fm_sortby_inofsz_cb (a b : ExtRef) : Int :=
  if a.2.sb.st_size < b.2.sb.st_size then -1 else if a.2.sb.st_size > b.2.sb.st_size then 1 else 0

/-- `in1->inode->names->name` is the head of the name list (the list is
kept sorted, so this is the canonical, alphabetically-first name). -/
def fm_sortby_inofname_cb (a b : ExtRef) : Int :=
  let ret := strcmp (a.2.names.headD []) (b.2.names.headD [])
  if ret < 0 then -1 else if ret > 0 then 1 else 0

/-- The method dispatch of `fm_sortby_extent_cb` (lines 106-143): the
global `fm_sort_method` becomes an explicit parameter. -/
def fm_sortby_method (meth : SortMethod) (a b : ExtRef) : Int :=
  match meth with
  | SortMethod.extentOffset => fm_sortby_extoff_cb a b
  | SortMethod.extentLength => fm_sortby_extlen_cb a b
  | SortMethod.inodeExtentCount => fm_sortby_extcnt_cb a b
  | SortMethod.inodeLinkCount => fm_sortby_inofcnt_cb a b
  | SortMethod.inodeNumber => fm_sortby_inonum_cb a b
  | SortMethod.filesize => fm_sortby_inofsz_cb a b
  | SortMethod.filename => fm_sortby_inofname_cb a b

/-- `fm_sortby_extent_cb` (`src/sort.c` lines 99-164): dispatch on the
sort method, then apply the direction to the three-way result
(ascending returns it unchanged, descending flips its sign). -/
def fm_sortby_extent_cb (meth : SortMethod) (dir : SortDir) (a b : ExtRef) : Int :=
  let ret := fm_sortby_method meth a b
  match dir with
  | SortDir.ascending => ret
  | SortDir.descending => if ret < 0 then 1 else if ret > 0 then -1 else 0

/-! ### Aggregate statistics (`src/print.c` lines 182-250) -/

/-- The `HASH_ITER` loop of `fm_print_results` (lines 198-205): count
the fragmented inodes and sum their extent counts. -/
def fraggedTotals (inodes : List FmInode) : Nat × Nat :=
  inodes.foldl
    (fun acc i =>
      if i.flags &&& FM_IFLAGS_FRAGMENTED = 0 then acc else (acc.1 + 1, acc.2 + i.extcount))
    (0, 0)

/-- The "Fragmented inodes" statistics line of `fm_print_results`
(lines 195-250), as the data it prints: `none` when nothing is printed
(no extents at all — early return; `--skip-preamble`; or no fragmented
inodes), otherwise the fragmented-inode count, the total inode count,
the percentage `100 * fragged / total` and the average
`fragged_extents / fragged_inodes`.  The C `long double` divisions are
modelled as exact rational arithmetic. -/
def fm_fragline (st : FmState) (skipPreamble : Bool) : Option (Nat × Nat × ℚ × ℚ) :=
  if st.fmExtentCount = 0 then none
  else
    let fr := fraggedTotals st.fmInodes
    if skipPreamble then none
    else if fr.1 = 0 then none
    else
      some (fr.1, st.fmInodeCount,
        100 * ((fr.1 : ℚ) / (st.fmInodeCount : ℚ)), (fr.2 : ℚ) / (fr.1 : ℚ))

/-! ### The directory walker (`src/dirents.c`) and driver (`src/main.c`)

The filesystem the walker traverses is modelled as a tree of directory
entries.  Each I/O operation's outcome (a `readdir`, `fstatat`,
`openat` or `fstat` failure, a device mismatch, an excluded file type)
is injected through the entry constructors, since it is decided by the
environment, not the program. -/

/-- One directory entry as the walker experiences it (`src/dirents.c`
lines 46-136).  `efile`/`edir` are entries that stat and open cleanly as
a regular file or directory on the same device; each carries the
allocation-outcome oracle of its own `fm_scan_extents` call (for a
directory, the call made on the directory itself in `-d` mode).  The
remaining constructors inject the environment outcomes of the
corresponding checks, in the order the C code performs them. -/
inductive Ent : Type where
  | efile (sb : Stat) (name : List Nat) (disk : List FiemapExtent) (o : AllocOracle) : Ent
  | edir (sb : Stat) (name : List Nat) (fsyncFail fdopendirFail : Bool)
      (ddisk : List FiemapExtent) (da : AllocOracle) (ents : List Ent) : Ent
  | edot : Ent
  | ereaddirFail : Ent
  | estatFail : Ent
  | eotherDev : Ent
  | eotherType : Ent
  | eopenFail : Ent
  | efstatFail : Ent
  | eotherDevAfterOpen : Ent
deriving Inhabited

mutual

/-- `fm_scan_directory` (`src/dirents.c` lines 25-149): optional fsync
(failure aborts), `fdopendir` (failure aborts), the entry loop, and —
when directory scanning is enabled — a final `fm_scan_extents` on the
directory itself (`ddisk` is the directory's own extent list, `da` the
allocation oracle of that call). -/
def fm_scan_directory (syncFiles scanDirs : Bool) (blksz : Nat) (sb : Stat)
    (abspath : List Nat) (fsyncFail fdopendirFail : Bool) (ddisk : List FiemapExtent)
    (da : AllocOracle) (ents : List Ent) (st : FmState) : Bool × FmState :=
  if syncFiles ∧ fsyncFail then (false, st)
  else if fdopendirFail then (false, st)
  else
    match fm_walk_entries syncFiles scanDirs blksz ents st with
    | (false, st1) => (false, st1)
    | (true, st1) =>
      if scanDirs then
        let r := fm_scan_extents_alloc blksz da st1 sb abspath ddisk
        if r.ok then (true, r.st) else (false, r.st)
      else (true, st1)

/-- The `for (;;)` entry loop of `fm_scan_directory` (lines 46-136):
process entries in order; `.` and `..`, foreign-device and
excluded-type entries are skipped; any failed operation aborts the
whole walk; files go to `fm_scan_extents` (allocation-refined) and
subdirectories recurse, aborting on failure.  The parent's block size
is the global `fm_blksz`, passed down unchanged. -/
def fm_walk_entries (syncFiles scanDirs : Bool) (blksz : Nat) (ents : List Ent)
    (st : FmState) : Bool × FmState :=
  match ents with
  | [] => (true, st)
  | Ent.edot :: rest => fm_walk_entries syncFiles scanDirs blksz rest st
  | Ent.ereaddirFail :: _ => (false, st)
  | Ent.estatFail :: _ => (false, st)
  | Ent.eotherDev :: rest => fm_walk_entries syncFiles scanDirs blksz rest st
  | Ent.eotherType :: rest => fm_walk_entries syncFiles scanDirs blksz rest st
  | Ent.eopenFail :: _ => (false, st)
  | Ent.efstatFail :: _ => (false, st)
  | Ent.eotherDevAfterOpen :: rest => fm_walk_entries syncFiles scanDirs blksz rest st
  | Ent.efile sb nm disk o :: rest =>
    let r := fm_scan_extents_alloc blksz o st sb nm disk
    if r.ok then fm_walk_entries syncFiles scanDirs blksz rest r.st else (false, r.st)
  | Ent.edir dsb nm fsf fdf ddisk da sub :: rest =>
    match fm_scan_directory syncFiles scanDirs blksz dsb nm fsf fdf ddisk da sub st with
    | (true, st1) => fm_walk_entries syncFiles scanDirs blksz rest st1
    | (false, st1) => (false, st1)

end

/-- The root argument of `main` (`src/main.c` lines 67-102): opening or
statting the path may fail; otherwise it is a directory, a regular
file, or something else (which is rejected). -/
inductive RootArg : Type where
  | ropenFail : RootArg
  | rstatFail : RootArg
  | rother : RootArg
  | rdir (sb : Stat) (path : List Nat) (fsyncFail fdopendirFail : Bool)
      (ddisk : List FiemapExtent) (da : AllocOracle) (ents : List Ent) : RootArg
  | rfile (sb : Stat) (path : List Nat) (disk : List FiemapExtent) (o : AllocOracle) : RootArg
deriving Inhabited

/-- The outcome of `main`: the process exit code and whether
`fm_print_results` was reached (line 106 runs only after a fully
successful scan). -/
structure MainRes where
  exitCode : Nat
  printedReport : Bool
  finalState : FmState
deriving DecidableEq, Inhabited

/-- `main` (`src/main.c` lines 48-109), after option parsing has
returned `FM_OPTPARSE_CONTINUE`: scan the root, and only if the scan
succeeds sort the extents and reach `fm_print_results`
(`EXIT_SUCCESS = 0`, `EXIT_FAILURE = 1`). -/
def main_run (syncFiles scanDirs : Bool) (arg : RootArg) (st : FmState) : MainRes :=
  match arg with
  | RootArg.ropenFail => ⟨1, false, st⟩
  | RootArg.rstatFail => ⟨1, false, st⟩
  | RootArg.rother => ⟨1, false, st⟩
  | RootArg.rdir sb path fsf fdf ddisk da ents =>
    match fm_scan_directory syncFiles scanDirs sb.st_blksize sb path fsf fdf ddisk da ents st with
    | (false, st1) => ⟨1, false, st1⟩
    | (true, st1) => ⟨0, true, st1⟩
  | RootArg.rfile sb path disk o =>
    let r := fm_scan_extents_alloc sb.st_blksize o st sb path disk
    if r.ok then ⟨0, true, r.st⟩ else ⟨1, false, r.st⟩

mutual

/-- Whether an entry, when reached by the walker, is certain to make an
operation fail whatever the graph state: a `readdir`, `fstatat`,
`openat` or `fstat` failure on the entry itself; a failed `fm_name`
allocation on a file (the one allocation performed on the fresh and
the hardlink path alike); or — for a subdirectory — a failed fsync
(only attempted in sync mode), a failed `fdopendir`, a failed
`fm_name` allocation for the directory's own scan (only made in `-d`
mode), or a certain failure somewhere below it.  State-dependent
failures (duplicate offsets, truncation, the remaining allocation
sites) are covered by the propagation theorems instead. -/
def entHasFail (syncFiles scanDirs : Bool) : Ent → Bool
  | Ent.ereaddirFail => true
  | Ent.estatFail => true
  | Ent.eopenFail => true
  | Ent.efstatFail => true
  | Ent.efile _ _ _ o => o.fnFail
  | Ent.edir _ _ fsf fdf _ da sub =>
    (syncFiles && fsf) || fdf || (scanDirs && da.fnFail) ||
      entsHaveFail syncFiles scanDirs sub
  | _ => false

/-- Whether some entry of a directory listing injects a certain
failure. -/
def entsHaveFail (syncFiles scanDirs : Bool) : List Ent → Bool
  | [] => false
  | e :: rest => entHasFail syncFiles scanDirs e || entsHaveFail syncFiles scanDirs rest

end

/-- One scan request as the walker issues it: the `fstat` result, the
absolute path, and the file's true extent list. -/
structure Req where
  sb : Stat
  abspath : List Nat
  disk : List FiemapExtent
deriving DecidableEq, Inhabited

/-- Run `fm_scan_extents` over a sequence of requests, aborting at the
first failure exactly as the walker does, and (ghost instrumentation)
count how many of the calls performed the kernel extent query. -/
def fm_scan_many (blksz : Nat) (st : FmState) : List Req → Bool × FmState × Nat
  | [] => (true, st, 0)
  | r :: rs =>
    let res := fm_scan_extents blksz st r.sb r.abspath r.disk
    if res.ok then
      let rest := fm_scan_many blksz res.st rs
      (rest.1, rest.2.1, (if res.queried then 1 else 0) + rest.2.2)
    else (false, res.st, if res.queried then 1 else 0)

/-! ### Spec-side predicates -/

/-- A name list sorted by `strcmp` (the invariant `DL_SORT` maintains). -/
def NameListSorted (ns : List (List Nat)) : Prop :=
  List.Pairwise (fun a b => strcmp a b ≤ 0) ns

/-- Pure mirror of the classification-flag accumulation of the
per-extent loop (lines 132-148): the fragmentation/order flags from the
comparison with the immediate predecessor, plus the alignment flag. -/
def loopFlags (blksz : Nat) : Option (Nat × Nat) → List FiemapExtent → Nat
  | _, [] => 0
  | prev, e :: rest =>
    let pf :=
      match prev with
      | none => 0
      | some (poff, plen) =>
        (if e.fe_physical > (poff + plen) % U64 then FM_IFLAGS_FRAGMENTED else 0) |||
          (if e.fe_physical < poff then FM_IFLAGS_FRAGMENTED ||| FM_IFLAGS_UNORDERED else 0)
    let af :=
      if e.fe_physical % blksz ≠ 0 ∨ e.fe_length % blksz ≠ 0 then FM_IFLAGS_UNALIGNED else 0
    (pf ||| af) ||| loopFlags blksz (some (e.fe_physical, e.fe_length)) rest

/-! ### Concrete example data used by witnesses -/

/-- A finished-state example for the aggregate-statistics claim: 10
inodes, 3 of them fragmented with 4, 5 and 6 extents. -/
def statsExample : FmState :=
  { fmhExtentCount := 32
    fmExtents := []
    fmInodes :=
      [⟨1, ⟨1, 1, FileMode.reg, 0, 4096⟩, [[97]], 4, 1, 1⟩,
       ⟨2, ⟨2, 1, FileMode.reg, 0, 4096⟩, [[98]], 5, 1, 1⟩,
       ⟨3, ⟨3, 1, FileMode.reg, 0, 4096⟩, [[99]], 6, 1, 1⟩,
       ⟨4, ⟨4, 1, FileMode.reg, 0, 4096⟩, [[100]], 1, 1, 0⟩,
       ⟨5, ⟨5, 1, FileMode.reg, 0, 4096⟩, [[101]], 1, 1, 0⟩,
       ⟨6, ⟨6, 1, FileMode.reg, 0, 4096⟩, [[102]], 1, 1, 0⟩,
       ⟨7, ⟨7, 1, FileMode.reg, 0, 4096⟩, [[103]], 1, 1, 0⟩,
       ⟨8, ⟨8, 1, FileMode.reg, 0, 4096⟩, [[104]], 1, 1, 0⟩,
       ⟨9, ⟨9, 1, FileMode.reg, 0, 4096⟩, [[105]], 1, 1, 0⟩,
       ⟨10, ⟨10, 1, FileMode.reg, 0, 4096⟩, [[106]], 1, 1, 0⟩]
    fmExtentCount := 22
    fmInodeCount := 10
    fmFileCount := 10
    fmDirCount := 0
    fmIntegralBlksz := true }

/-- A complete 256-extent report whose final extent carries the
last-extent marker. -/
def disk256 : List FiemapExtent :=
  (List.range 256).map (fun i => ⟨8192 * i, 4096, if i = 255 then 1 else 0⟩)

/-- A one-file state used by the uniqueness witness: inode 1 owns the
single extent at physical offset 4096. -/
def c2ExampleState : FmState :=
  (fm_scan_extents 4096 initialState ⟨1, 1, FileMode.reg, 4096, 4096⟩ [100]
    [⟨4096, 4096, 1⟩]).st

/-! ## Basic bitmask lemmas -/

theorem and_one_ne_iff (x : Nat) : x &&& 1 ≠ 0 ↔ x.testBit 0 = true := by
  rw [Nat.and_one_is_mod, Nat.testBit_zero]
  rcases Nat.mod_two_eq_zero_or_one x with h | h <;> simp [h]

theorem and_two_ne_iff (x : Nat) : x &&& 2 ≠ 0 ↔ x.testBit 1 = true := by
  have h := Nat.and_two_pow x 1
  norm_num at h
  rw [h]
  cases hx : x.testBit 1 <;> simp

/-! ## `strcmp` lemmas -/

theorem strcmp_nil_le (b : List Nat) : strcmp [] b ≤ 0 := by
  cases b <;> simp [strcmp]

theorem strcmp_self (a : List Nat) : strcmp a a = 0 := by
  induction a with
  | nil => rfl
  | cons x xs ih => simp [strcmp, ih]

theorem strcmp_antisymm (a b : List Nat) : strcmp a b = - strcmp b a := by
  induction a generalizing b with
  | nil => cases b <;> simp [strcmp]
  | cons x xs ih =>
    cases b with
    | nil => simp [strcmp]
    | cons y ys =>
      simp only [strcmp]
      rcases Nat.lt_trichotomy x y with h | h | h
      · simp [h, Nat.not_lt_of_lt h]
      · simp [h, lt_irrefl, ih ys]
      · simp [h, Nat.not_lt_of_lt h]

theorem strcmp_le_trans {a b c : List Nat} (hab : strcmp a b ≤ 0) (hbc : strcmp b c ≤ 0) :
    strcmp a c ≤ 0 := by
  induction a generalizing b c with
  | nil => exact strcmp_nil_le c
  | cons x xs ih =>
    cases b with
    | nil => simp [strcmp] at hab
    | cons y ys =>
      cases c with
      | nil => simp [strcmp] at hbc
      | cons z zs =>
        simp only [strcmp] at hab hbc ⊢
        rcases Nat.lt_trichotomy x y with h1 | h1 | h1
        · rcases Nat.lt_trichotomy y z with h2 | h2 | h2
          · simp [show x < z from lt_trans h1 h2]
          · subst h2; simp [h1]
          · simp [h2, Nat.not_lt_of_lt h2] at hbc
        · subst h1
          rcases Nat.lt_trichotomy x z with h2 | h2 | h2
          · simp [h2]
          · subst h2
            simp only [lt_irrefl, if_false] at hab hbc ⊢
            exact ih hab hbc
          · simp [h2, Nat.not_lt_of_lt h2] at hbc
        · simp [h1, Nat.not_lt_of_lt h1] at hab

theorem strcmp_total {a b : List Nat} (h : ¬ strcmp a b ≤ 0) : strcmp b a ≤ 0 := by
  rw [strcmp_antisymm] at h
  omega

/-! ## Insertion sort (`insertName` / `nameSort`) lemmas -/

theorem insertName_perm (nm : List Nat) (l : List (List Nat)) :
    (insertName nm l).Perm (nm :: l) := by
  induction l with
  | nil => simp [insertName]
  | cons x xs ih =>
    simp only [insertName]
    split
    · exact List.Perm.refl _
    · exact ((ih.cons x).trans (List.Perm.swap nm x xs))

theorem nameSort_perm (l : List (List Nat)) : (nameSort l).Perm l := by
  induction l with
  | nil => simp [nameSort]
  | cons x xs ih => exact (insertName_perm x (nameSort xs)).trans (ih.cons x)

theorem insertName_sorted (nm : List Nat) (l : List (List Nat)) (h : NameListSorted l) :
    NameListSorted (insertName nm l) := by
  induction l with
  | nil => simp [insertName, NameListSorted]
  | cons x xs ih =>
    rw [NameListSorted, List.pairwise_cons] at h
    simp only [insertName]
    split
    · rename_i hle
      rw [NameListSorted, List.pairwise_cons]
      refine ⟨?_, List.pairwise_cons.mpr h⟩
      intro b hb
      rcases List.mem_cons.mp hb with rfl | hb
      · exact hle
      · exact strcmp_le_trans hle (h.1 b hb)
    · rename_i hgt
      rw [NameListSorted, List.pairwise_cons]
      refine ⟨?_, ih h.2⟩
      intro b hb
      have hmem : b ∈ nm :: xs := (insertName_perm nm xs).mem_iff.mp hb
      rcases List.mem_cons.mp hmem with rfl | hb2
      · exact strcmp_total hgt
      · exact h.1 b hb2

theorem nameSort_sorted (l : List (List Nat)) : NameListSorted (nameSort l) := by
  induction l with
  | nil => simp [nameSort, NameListSorted]
  | cons x xs ih => exact insertName_sorted x (nameSort xs) ih

theorem nameSort_length (l : List (List Nat)) : (nameSort l).length = l.length :=
  (nameSort_perm l).length_eq

theorem sorted_head_min (ns : List (List Nat)) (h : NameListSorted ns) :
    ∀ nm ∈ ns, strcmp (ns.headD []) nm ≤ 0 := by
  cases ns with
  | nil => intro nm hnm; simp at hnm
  | cons x xs =>
    rw [NameListSorted, List.pairwise_cons] at h
    intro nm hnm
    rcases List.mem_cons.mp hnm with rfl | hnm
    · simp [strcmp_self]
    · exact h.1 nm hnm

/-! ## C6: sort direction is a uniform sign negation -/

theorem fm_sortby_method_cases (meth : SortMethod) (a b : ExtRef) :
    fm_sortby_method meth a b = -1 ∨ fm_sortby_method meth a b = 0 ∨
      fm_sortby_method meth a b = 1 := by
  cases meth <;>
    simp only [fm_sortby_method, fm_sortby_extoff_cb, fm_sortby_extlen_cb, fm_sortby_extcnt_cb,
      fm_sortby_inofcnt_cb, fm_sortby_inonum_cb, fm_sortby_inofsz_cb, fm_sortby_inofname_cb] <;>
    split_ifs <;> simp

/-- Claim C6: for every sort method and every pair of extents, the
comparator invoked with descending direction returns the sign-negation
of the comparator invoked with ascending direction on the same pair
(the direction is applied only by negating the three-way result of the
method comparator); consequently reversing the direction exactly
reverses the relative order of every pair of non-tied elements, and
ties stay ties. -/
theorem c6_sort_direction_negation (meth : SortMethod) (a b : ExtRef) :
    fm_sortby_extent_cb meth SortDir.descending a b
        = - fm_sortby_extent_cb meth SortDir.ascending a b ∧
    (fm_sortby_extent_cb meth SortDir.ascending a b < 0 ↔
      fm_sortby_extent_cb meth SortDir.descending a b > 0) ∧
    (fm_sortby_extent_cb meth SortDir.ascending a b > 0 ↔
      fm_sortby_extent_cb meth SortDir.descending a b < 0) ∧
    (fm_sortby_extent_cb meth SortDir.ascending a b = 0 ↔
      fm_sortby_extent_cb meth SortDir.descending a b = 0) := by
  rcases fm_sortby_method_cases meth a b with h | h | h <;>
    simp [fm_sortby_extent_cb, h]

/-! ## C5: the descriptor is closed only on the success path -/

/-- Claim C5 counterexample: the claim says the descriptor is closed on
every failure path; but when the second scanned file shares physical
offset 0 with the first (the duplicate-extent error path of
`fm_scan_extents`, lines 107-112), the function returns `false` without
ever reaching the `close(fd)` at line 189. -/
theorem c5_fd_close_counterexample :
    ((fm_scan_extents 4096
        (fm_scan_extents 4096 initialState ⟨7, 1, FileMode.reg, 12288, 4096⟩ [97]
          [⟨0, 4096, 0⟩, ⟨4096, 4096, 0⟩, ⟨16384, 4096, 1⟩]).st
        ⟨8, 1, FileMode.reg, 4096, 4096⟩ [98] [⟨0, 4096, 1⟩]).ok = false) ∧
    ((fm_scan_extents 4096
        (fm_scan_extents 4096 initialState ⟨7, 1, FileMode.reg, 12288, 4096⟩ [97]
          [⟨0, 4096, 0⟩, ⟨4096, 4096, 0⟩, ⟨16384, 4096, 1⟩]).st
        ⟨8, 1, FileMode.reg, 4096, 4096⟩ [98] [⟨0, 4096, 1⟩]).closedFd = false) := by
  decide

/-- Claim C5 (amended): for every call of `fm_scan_extents`, the file
descriptor is closed before returning exactly on the success path; on
every failure path the descriptor is left open (the whole scan then
aborts and the process exits). -/
theorem c5_fd_closed_iff_ok (blksz : Nat) (st : FmState) (sb : Stat) (ap : List Nat)
    (disk : List FiemapExtent) :
    (fm_scan_extents blksz st sb ap disk).closedFd = (fm_scan_extents blksz st sb ap disk).ok := by
  rcases hf : findInode st.fmInodes sb.st_ino with _ | fi
  · by_cases hm : min disk.length (growCap st.fmhExtentCount disk.length)
        = growCap st.fmhExtentCount disk.length
    · simp [fm_scan_extents, hf, fm_scan_fresh, hm]
    · by_cases hl : (scanLoop blksz sb.st_ino
          (min disk.length (growCap st.fmhExtentCount disk.length)) none 0
          (disk.take (min disk.length (growCap st.fmhExtentCount disk.length)))
          st.fmExtents 0 0 st.fmIntegralBlksz).ok
      · simp [fm_scan_extents, hf, fm_scan_fresh, hm, hl, finishName]
      · simp [fm_scan_extents, hf, fm_scan_fresh, hm, hl]
  · simp [fm_scan_extents, hf, finishName]

/-! ## C8: aggregate statistics -/

theorem fraggedTotals_foldl (l : List FmInode) (acc : Nat × Nat) :
    l.foldl
      (fun acc i =>
        if i.flags &&& FM_IFLAGS_FRAGMENTED = 0 then acc else (acc.1 + 1, acc.2 + i.extcount))
      acc
    = (acc.1 + l.countP (fun i => i.flags &&& FM_IFLAGS_FRAGMENTED != 0),
       acc.2 + ((l.filter (fun i => i.flags &&& FM_IFLAGS_FRAGMENTED != 0)).map
         FmInode.extcount).sum) := by
  induction l generalizing acc with
  | nil => simp
  | cons i rest ih =>
    by_cases h : i.flags &&& FM_IFLAGS_FRAGMENTED = 0
    · simp [List.foldl_cons, h, ih, List.countP_cons, List.filter_cons]
    · have hp : (i.flags &&& FM_IFLAGS_FRAGMENTED != 0) = true := by simpa using h
      rw [List.foldl_cons, if_neg h, ih, Prod.ext_iff]
      simp only [List.countP_cons, List.filter_cons, hp, if_true, List.map_cons, List.sum_cons]
      constructor <;> omega

theorem fraggedTotals_eq (l : List FmInode) :
    fraggedTotals l
      = (l.countP (fun i => i.flags &&& FM_IFLAGS_FRAGMENTED != 0),
         ((l.filter (fun i => i.flags &&& FM_IFLAGS_FRAGMENTED != 0)).map
           FmInode.extcount).sum) := by
  simpa [fraggedTotals] using fraggedTotals_foldl l (0, 0)

/-- Claim C8: the aggregate statistics equal: fragmented-inode count =
number of inodes with the fragmented flag; fragmented-extent sum = sum
of `extcount` over those inodes; percentage = `100 * fragged / total
inode count`; average = `fragged extents / fragged inodes`, output only
when fragmented inodes exist; with no extents at all the early return
produces no statistics output.  (The C `long double` divisions are
modelled as exact rational divisions.) -/
theorem c8_aggregate_statistics (st : FmState) :
    (fraggedTotals st.fmInodes).1
        = st.fmInodes.countP (fun i => i.flags &&& FM_IFLAGS_FRAGMENTED != 0) ∧
    (fraggedTotals st.fmInodes).2
        = ((st.fmInodes.filter (fun i => i.flags &&& FM_IFLAGS_FRAGMENTED != 0)).map
            FmInode.extcount).sum ∧
    (st.fmExtentCount = 0 → ∀ skipPreamble, fm_fragline st skipPreamble = none) ∧
    (st.fmExtentCount ≠ 0 →
      st.fmInodes.countP (fun i => i.flags &&& FM_IFLAGS_FRAGMENTED != 0) ≠ 0 →
      fm_fragline st false
        = some (st.fmInodes.countP (fun i => i.flags &&& FM_IFLAGS_FRAGMENTED != 0),
            st.fmInodeCount,
            100 * ((st.fmInodes.countP (fun i => i.flags &&& FM_IFLAGS_FRAGMENTED != 0) : ℚ)
              / (st.fmInodeCount : ℚ)),
            (((st.fmInodes.filter (fun i => i.flags &&& FM_IFLAGS_FRAGMENTED != 0)).map
                FmInode.extcount).sum : ℚ)
              / (st.fmInodes.countP (fun i => i.flags &&& FM_IFLAGS_FRAGMENTED != 0) : ℚ))) := by
  have h1 := fraggedTotals_eq st.fmInodes
  refine ⟨by rw [h1], by rw [h1], ?_, ?_⟩
  · intro h0 skipPreamble
    simp [fm_fragline, h0]
  · intro hne hcnt
    simp [fm_fragline, hne, h1, hcnt]


theorem c8_aggregate_statistics_witness :
    statsExample.fmExtentCount ≠ 0 ∧
    statsExample.fmInodes.countP (fun i => i.flags &&& FM_IFLAGS_FRAGMENTED != 0) ≠ 0 ∧
    fm_fragline statsExample false = some (3, 10, 30, 5) := by
  refine ⟨by decide, by decide, ?_⟩
  have h := (c8_aggregate_statistics statsExample).2.2.2 (by decide) (by decide)
  rw [h]
  norm_num [show statsExample.fmInodes.countP
      (fun i => i.flags &&& FM_IFLAGS_FRAGMENTED != 0) = 3 from by decide,
    show ((statsExample.fmInodes.filter
        (fun i => i.flags &&& FM_IFLAGS_FRAGMENTED != 0)).map FmInode.extcount).sum = 15
      from by decide,
    show statsExample.fmInodeCount = 10 from by decide]

/-! ## C9 and C10: truncation failures of the extent query -/

/-- Shared shape lemma: a first-time extent query whose grown capacity
is at most the disk's extent count reports `fm_mapped_extents` equal to
the buffer capacity on the second FIEMAP call, and `fm_scan_extents`
fails having changed nothing but the scratch-buffer capacity. -/
theorem scan_trunc_fail (blksz : Nat) (st : FmState) (sb : Stat) (ap : List Nat)
    (disk : List FiemapExtent)
    (hnew : findInode st.fmInodes sb.st_ino = none)
    (hcap : growCap st.fmhExtentCount disk.length ≤ disk.length) :
    fm_scan_extents blksz st sb ap disk
      = ⟨false, { st with fmhExtentCount := growCap st.fmhExtentCount disk.length },
          false, true⟩ := by
  have hm : min disk.length (growCap st.fmhExtentCount disk.length)
      = growCap st.fmhExtentCount disk.length := min_eq_right hcap
  simp [fm_scan_extents, hnew, fm_scan_fresh, hm]

/-- Claim C9: for every first-time extent query, if the kernel's second
FIEMAP invocation reports a mapped-extent count equal to the requested
buffer capacity (in the model: the grown capacity is at most the file's
true extent count, so the kernel fills the whole buffer),
`fm_scan_extents` fails without installing the inode or any of its
extents into the graph. -/
theorem c9_truncation_fails (blksz : Nat) (st : FmState) (sb : Stat) (ap : List Nat)
    (disk : List FiemapExtent)
    (hnew : findInode st.fmInodes sb.st_ino = none)
    (hcap : growCap st.fmhExtentCount disk.length ≤ disk.length) :
    (fm_scan_extents blksz st sb ap disk).ok = false ∧
    (fm_scan_extents blksz st sb ap disk).queried = true ∧
    (fm_scan_extents blksz st sb ap disk).st.fmExtents = st.fmExtents ∧
    (fm_scan_extents blksz st sb ap disk).st.fmInodes = st.fmInodes ∧
    (fm_scan_extents blksz st sb ap disk).st.fmExtentCount = st.fmExtentCount ∧
    (fm_scan_extents blksz st sb ap disk).st.fmInodeCount = st.fmInodeCount := by
  rw [scan_trunc_fail blksz st sb ap disk hnew hcap]
  exact ⟨rfl, rfl, rfl, rfl, rfl, rfl⟩

theorem c9_truncation_fails_witness :
    findInode initialState.fmInodes 7 = none ∧
    growCap initialState.fmhExtentCount ([] : List FiemapExtent).length
      ≤ ([] : List FiemapExtent).length ∧
    (fm_scan_extents 4096 initialState ⟨7, 1, FileMode.reg, 0, 4096⟩ [97] []).ok = false :=
  ⟨by decide, by decide,
    (c9_truncation_fails 4096 initialState ⟨7, 1, FileMode.reg, 0, 4096⟩ [97] []
      (by decide) (by decide)).1⟩

/-- Claim C10: for every first-time extent query where the
kernel-reported extent count is a multiple of 256 (including 0) and at
least the scratch buffer's previous capacity, the growth formula
`count + ((count + 256) % 256)` adds zero slack, the new capacity
equals the reported count, and `fm_scan_extents` always fails with a
truncation error — regardless of the extents' flags, hence even when
the kernel returned a complete extent list ending with the last-extent
marker. -/
theorem c10_growth_zero_slack (blksz : Nat) (st : FmState) (sb : Stat) (ap : List Nat)
    (disk : List FiemapExtent)
    (hnew : findInode st.fmInodes sb.st_ino = none)
    (hmul : disk.length % 256 = 0)
    (hge : st.fmhExtentCount ≤ disk.length) :
    growCap st.fmhExtentCount disk.length = disk.length ∧
    (fm_scan_extents blksz st sb ap disk).ok = false ∧
    (fm_scan_extents blksz st sb ap disk).st.fmInodes = st.fmInodes ∧
    (fm_scan_extents blksz st sb ap disk).st.fmExtents = st.fmExtents := by
  have hgc : growCap st.fmhExtentCount disk.length = disk.length := by
    simp only [growCap, if_pos hge]
    omega
  rw [scan_trunc_fail blksz st sb ap disk hnew (le_of_eq hgc)]
  exact ⟨hgc, rfl, rfl, rfl⟩


set_option maxRecDepth 8192 in
theorem c10_growth_zero_slack_witness :
    disk256.length % 256 = 0 ∧
    initialState.fmhExtentCount ≤ disk256.length ∧
    (disk256.getLast?.map FiemapExtent.fe_flags = some FIEMAP_EXTENT_LAST) ∧
    (fm_scan_extents 4096 initialState ⟨9, 1, FileMode.reg, 0, 4096⟩ [99] disk256).ok = false :=
  ⟨by decide, by decide, by decide,
    (c10_growth_zero_slack 4096 initialState ⟨9, 1, FileMode.reg, 0, 4096⟩ [99] disk256
      (by decide) (by decide) (by decide)).2.1⟩

/-! ## C2: global physical-offset uniqueness -/

theorem findExtent_eq_none_iff (l : List FmExtent) (off : Nat) :
    findExtent l off = none ↔ ∀ e ∈ l, e.off ≠ off := by
  simp [findExtent, List.find?_eq_none]

/-- The per-extent loop preserves `Nodup` of the global physical
offsets: every `HASH_ADD` is guarded by a failed `HASH_FIND`. -/
theorem scanLoop_nodup (blksz inum mapped : Nat) :
    ∀ (exts : List FiemapExtent) (prev : Option (Nat × Nat)) (i : Nat) (ge : List FmExtent)
      (flags extcount : Nat) (integral : Bool),
      (ge.map FmExtent.off).Nodup →
      (((scanLoop blksz inum mapped prev i exts ge flags extcount integral).fmExtents).map
        FmExtent.off).Nodup := by
  intro exts
  induction exts with
  | nil =>
    intro prev i ge flags ec itg h
    simpa [scanLoop] using h
  | cons e rest ih =>
    intro prev i ge flags ec itg h
    cases hfe : findExtent ge e.fe_physical with
    | some g => simpa [scanLoop, hfe] using h
    | none =>
      by_cases htr : (i + 1 = mapped ∧ e.fe_flags &&& FIEMAP_EXTENT_LAST = 0)
      · simpa [scanLoop, hfe, htr] using h
      · simp only [scanLoop, hfe, if_neg htr]
        apply ih
        rw [List.map_append, List.nodup_append]
        refine ⟨h, by simp, ?_⟩
        intro a ha
        rcases List.mem_map.mp ha with ⟨g, hg, rfl⟩
        rw [findExtent_eq_none_iff] at hfe
        simp [hfe g hg]

/-- If any reported extent's physical offset already occurs in the
global extent table, the per-extent loop fails. -/
theorem scanLoop_dup_fail (blksz inum mapped : Nat) :
    ∀ (exts : List FiemapExtent) (prev : Option (Nat × Nat)) (i : Nat) (ge : List FmExtent)
      (flags extcount : Nat) (integral : Bool),
      (∃ e ∈ exts, ∃ g ∈ ge, g.off = e.fe_physical) →
      (scanLoop blksz inum mapped prev i exts ge flags extcount integral).ok = false := by
  intro exts
  induction exts with
  | nil =>
    rintro prev i ge fl ec itg ⟨e, he, -⟩
    simp at he
  | cons e0 rest ih =>
    rintro prev i ge fl ec itg ⟨e, he, g, hg, hoff⟩
    cases hfe : findExtent ge e0.fe_physical with
    | some g2 => simp [scanLoop, hfe]
    | none =>
      rcases List.mem_cons.mp he with rfl | he2
      · exfalso
        rw [findExtent_eq_none_iff] at hfe
        exact hfe g hg hoff
      · by_cases htr : (i + 1 = mapped ∧ e0.fe_flags &&& FIEMAP_EXTENT_LAST = 0)
        · simp [scanLoop, hfe, htr]
        · simp only [scanLoop, hfe, if_neg htr]
          exact ih _ _ _ _ _ _ ⟨e, he2, g, List.mem_append_left _ hg, hoff⟩

/-- Claim C2: no two extents in the global extent set share a physical
offset — the `Nodup` invariant on physical offsets is preserved by
every `fm_scan_extents` call, whatever its outcome; and if the kernel
reports an extent whose physical offset already exists anywhere in the
global set, the first-time query fails (`fm_scan_extents` returns
`false`) without merging, so the scan aborts. -/
theorem c2_global_offset_uniqueness (blksz : Nat) (st : FmState) (sb : Stat) (ap : List Nat)
    (disk : List FiemapExtent) :
    ((st.fmExtents.map FmExtent.off).Nodup →
      (((fm_scan_extents blksz st sb ap disk).st.fmExtents).map FmExtent.off).Nodup) ∧
    (findInode st.fmInodes sb.st_ino = none →
      (∃ e ∈ disk, ∃ g ∈ st.fmExtents, g.off = e.fe_physical) →
      (fm_scan_extents blksz st sb ap disk).ok = false) := by
  constructor
  · intro h
    rcases hf : findInode st.fmInodes sb.st_ino with _ | fi
    · by_cases hm : min disk.length (growCap st.fmhExtentCount disk.length)
          = growCap st.fmhExtentCount disk.length
      · simpa [fm_scan_extents, hf, fm_scan_fresh, hm] using h
      · by_cases hl : (scanLoop blksz sb.st_ino
            (min disk.length (growCap st.fmhExtentCount disk.length)) none 0
            (disk.take (min disk.length (growCap st.fmhExtentCount disk.length)))
            st.fmExtents 0 0 st.fmIntegralBlksz).ok
        · simp only [fm_scan_extents, hf, fm_scan_fresh, if_neg hm, hl, if_true, finishName]
          split <;> exact scanLoop_nodup blksz sb.st_ino _ _ _ _ _ _ _ _ h
        · simp only [fm_scan_extents, hf, fm_scan_fresh, if_neg hm, hl]
          simp only [Bool.false_eq_true, if_false]
          exact scanLoop_nodup blksz sb.st_ino _ _ _ _ _ _ _ _ h
    · simp only [fm_scan_extents, hf, finishName]
      split <;> simpa using h
  · intro hf hdup
    by_cases hm : min disk.length (growCap st.fmhExtentCount disk.length)
        = growCap st.fmhExtentCount disk.length
    · simp [fm_scan_extents, hf, fm_scan_fresh, hm]
    · have hmap : min disk.length (growCap st.fmhExtentCount disk.length) = disk.length := by
        rcases Nat.le_total disk.length (growCap st.fmhExtentCount disk.length) with h | h
        · exact min_eq_left h
        · exact absurd (min_eq_right h) hm
      have htake : disk.take (min disk.length (growCap st.fmhExtentCount disk.length)) = disk := by
        rw [hmap, List.take_length]
      have hl : (scanLoop blksz sb.st_ino
          (min disk.length (growCap st.fmhExtentCount disk.length)) none 0
          (disk.take (min disk.length (growCap st.fmhExtentCount disk.length)))
          st.fmExtents 0 0 st.fmIntegralBlksz).ok = false := by
        rw [htake]
        exact scanLoop_dup_fail blksz sb.st_ino _ disk _ _ _ _ _ _ hdup
      simp [fm_scan_extents, hf, fm_scan_fresh, hm, hl]


theorem c2_global_offset_uniqueness_witness :
    (c2ExampleState.fmExtents.map FmExtent.off).Nodup ∧
    (((fm_scan_extents 4096 c2ExampleState ⟨2, 1, FileMode.reg, 4096, 4096⟩ [101]
        [⟨8192, 4096, 1⟩]).st.fmExtents).map FmExtent.off).Nodup ∧
    findInode c2ExampleState.fmInodes 3 = none ∧
    (fm_scan_extents 4096 c2ExampleState ⟨3, 1, FileMode.reg, 4096, 4096⟩ [102]
      [⟨4096, 4096, 1⟩]).ok = false := by
  refine ⟨by decide, ?_, by decide, ?_⟩
  · exact (c2_global_offset_uniqueness 4096 c2ExampleState ⟨2, 1, FileMode.reg, 4096, 4096⟩
      [101] [⟨8192, 4096, 1⟩]).1 (by decide)
  · exact (c2_global_offset_uniqueness 4096 c2ExampleState ⟨3, 1, FileMode.reg, 4096, 4096⟩
      [102] [⟨4096, 4096, 1⟩]).2 (by decide)
      ⟨⟨4096, 4096, 1⟩, by decide, ⟨4096, 4096, 1, 1, 1⟩, by decide, by decide⟩

/-! ## Structural lemmas about the scanner, shared by several claims -/

theorem findInode_append_right (l : List FmInode) (k : Nat) (x : FmInode)
    (hnone : findInode l k = none) (hx : x.inum = k) :
    findInode (l ++ [x]) k = some x := by
  rw [findInode, List.find?_append]
  rw [findInode] at hnone
  simp [hnone, List.find?_cons, hx]

theorem findInode_updInode (l : List FmInode) (k : Nat) (f : FmInode → FmInode)
    (hpres : ∀ i, (f i).inum = i.inum) :
    findInode (updInode l k f) k = (findInode l k).map f := by
  induction l with
  | nil => rfl
  | cons i rest ih =>
    by_cases hk : i.inum = k
    · simp [findInode, updInode, List.find?_cons, hk, hpres]
    · have hk2 : (i.inum == k) = false := by simp [hk]
      simp only [findInode, updInode, List.map_cons, hk2, Bool.false_eq_true, if_false]
      rw [List.find?_cons_of_neg _ (by simp [hk]), List.find?_cons_of_neg _ (by simp [hk])]
      simpa [findInode, updInode] using ih

theorem updInode_countP (l : List FmInode) (k : Nat) (f : FmInode → FmInode)
    (hpres : ∀ i, (f i).inum = i.inum) :
    (updInode l k f).countP (fun i => i.inum == k) = l.countP (fun i => i.inum == k) := by
  induction l with
  | nil => rfl
  | cons i rest ih =>
    by_cases hk : i.inum = k <;>
      simp [updInode, List.countP_cons, hk, hpres, ih] <;>
      simpa [updInode] using ih

theorem findInode_none_countP (l : List FmInode) (k : Nat)
    (h : findInode l k = none) :
    l.countP (fun i => i.inum == k) = 0 := by
  rw [findInode, List.find?_eq_none] at h
  rw [List.countP_eq_zero]
  intro i hi
  exact h i hi

/-- Shape of `finishName`: success, the requested `queried` flag is
passed through, exactly the target inode's name list is extended, and
the extent table and inode/extent counters are untouched. -/
theorem finishName_shape (st : FmState) (sb : Stat) (ap : List Nat) (q : Bool) :
    (finishName st sb ap q).ok = true ∧
    (finishName st sb ap q).queried = q ∧
    (finishName st sb ap q).closedFd = true ∧
    (finishName st sb ap q).st.fmInodes
      = updInode st.fmInodes sb.st_ino (nameAdd (buildName ap sb.st_mode)) ∧
    (finishName st sb ap q).st.fmExtents = st.fmExtents ∧
    (finishName st sb ap q).st.fmInodeCount = st.fmInodeCount ∧
    (finishName st sb ap q).st.fmExtentCount = st.fmExtentCount := by
  simp only [finishName]
  split <;> simp

/-- The loop outputs on success: the accumulated flags are the incoming
flags or-ed with the pure classifier result, and the extent counter
increments once per reported extent. -/
theorem scanLoop_ok_out (blksz inum mapped : Nat) :
    ∀ (exts : List FiemapExtent) (prev : Option (Nat × Nat)) (i : Nat) (ge : List FmExtent)
      (flags extcount : Nat) (integral : Bool),
      (scanLoop blksz inum mapped prev i exts ge flags extcount integral).ok = true →
      (scanLoop blksz inum mapped prev i exts ge flags extcount integral).flags
          = flags ||| loopFlags blksz prev exts ∧
      (scanLoop blksz inum mapped prev i exts ge flags extcount integral).extcount
          = extcount + exts.length := by
  intro exts
  induction exts with
  | nil =>
    intro prev i ge fl ec itg _
    simp [scanLoop, loopFlags]
  | cons e rest ih =>
    intro prev i ge fl ec itg hok
    cases hfe : findExtent ge e.fe_physical with
    | some g => simp [scanLoop, hfe] at hok
    | none =>
      by_cases htr : (i + 1 = mapped ∧ e.fe_flags &&& FIEMAP_EXTENT_LAST = 0)
      · simp [scanLoop, hfe, htr] at hok
      · simp only [scanLoop, hfe, if_neg htr] at hok ⊢
        cases prev with
        | none =>
          obtain ⟨h1, h2⟩ := ih _ _ _ _ _ _ hok
          rw [h1, h2]
          constructor
          · simp only [loopFlags]
            split_ifs <;> simp [Nat.lor_assoc]
          · simp [Nat.add_assoc, Nat.add_comm 1 rest.length]
        | some p =>
          obtain ⟨poff, plen⟩ := p
          obtain ⟨h1, h2⟩ := ih _ _ _ _ _ _ hok
          rw [h1, h2]
          constructor
          · simp only [loopFlags]
            split_ifs <;> simp [Nat.lor_assoc]
          · simp [Nat.add_assoc, Nat.add_comm 1 rest.length]


/-- Shape of a successful first-time scan: the kernel reported the
whole extent list (`take` is the identity), the per-extent loop
succeeded, and the result state carries the new inode (built from the
loop outputs) with its first name appended, with the inode counter
bumped once. -/
theorem fresh_ok_shape (blksz : Nat) (st : FmState) (sb : Stat) (ap : List Nat)
    (disk : List FiemapExtent)
    (hok : (fm_scan_fresh blksz st sb ap disk).ok = true) :
    (scanLoop blksz sb.st_ino (min disk.length (growCap st.fmhExtentCount disk.length)) none 0
        disk st.fmExtents 0 0 st.fmIntegralBlksz).ok = true ∧
    disk.take (min disk.length (growCap st.fmhExtentCount disk.length)) = disk ∧
    (fm_scan_fresh blksz st sb ap disk).st.fmInodes
      = updInode
          (st.fmInodes ++
            [{ inum := sb.st_ino, sb := sb, names := [],
               extcount := (scanLoop blksz sb.st_ino
                   (min disk.length (growCap st.fmhExtentCount disk.length)) none 0 disk
                   st.fmExtents 0 0 st.fmIntegralBlksz).extcount,
               namecount := 0,
               flags := (scanLoop blksz sb.st_ino
                   (min disk.length (growCap st.fmhExtentCount disk.length)) none 0 disk
                   st.fmExtents 0 0 st.fmIntegralBlksz).flags }])
          sb.st_ino (nameAdd (buildName ap sb.st_mode)) ∧
    (fm_scan_fresh blksz st sb ap disk).st.fmInodeCount = st.fmInodeCount + 1 ∧
    (fm_scan_fresh blksz st sb ap disk).queried = true := by
  by_cases hm : min disk.length (growCap st.fmhExtentCount disk.length)
      = growCap st.fmhExtentCount disk.length
  · simp [fm_scan_fresh, hm] at hok
  · have hmap : min disk.length (growCap st.fmhExtentCount disk.length) = disk.length := by
      rcases Nat.le_total disk.length (growCap st.fmhExtentCount disk.length) with h | h
      · exact min_eq_left h
      · exact absurd (min_eq_right h) hm
    have htake : disk.take (min disk.length (growCap st.fmhExtentCount disk.length)) = disk := by
      rw [hmap, List.take_length]
    by_cases hl : (scanLoop blksz sb.st_ino
        (min disk.length (growCap st.fmhExtentCount disk.length)) none 0 disk
        st.fmExtents 0 0 st.fmIntegralBlksz).ok = true
    · refine ⟨hl, htake, ?_, ?_, ?_⟩
      · simp only [fm_scan_fresh, if_neg hm, htake, hl, if_true]
        rw [(finishName_shape _ sb ap true).2.2.2.1]
      · simp only [fm_scan_fresh, if_neg hm, htake, hl, if_true]
        rw [(finishName_shape _ sb ap true).2.2.2.2.2.1]
      · simp only [fm_scan_fresh, if_neg hm, htake, hl, if_true]
        exact (finishName_shape _ sb ap true).2.1
    · exfalso
      rw [Bool.not_eq_true] at hl
      simp [fm_scan_fresh, hm, htake, hl] at hok

/-! ## C1: the fragmentation classifier -/

/-- The fragmented bit of the classifier output, seeded with a previous
extent `s`: set exactly when some adjacent pair (predecessor, current)
of the sequence `s :: l` has a gap or an inversion. -/
theorem loopFlags_frag_iff (blksz : Nat) :
    ∀ (l : List FiemapExtent) (s : FiemapExtent),
      s.fe_physical + s.fe_length < U64 →
      (∀ e ∈ l, e.fe_physical + e.fe_length < U64) →
      ((loopFlags blksz (some (s.fe_physical, s.fe_length)) l).testBit 0 = true ↔
        ∃ p ∈ (s :: l).zip l,
          p.2.fe_physical > p.1.fe_physical + p.1.fe_length ∨
            p.2.fe_physical < p.1.fe_physical) := by
  intro l
  induction l with
  | nil =>
    intro s hs hl
    simp [loopFlags]
  | cons e rest ih =>
    intro s hs hl
    have hmod : (s.fe_physical + s.fe_length) % U64 = s.fe_physical + s.fe_length :=
      Nat.mod_eq_of_lt hs
    have ihe := ih e (hl e (List.mem_cons_self e rest))
      (fun x hx => hl x (List.mem_cons_of_mem e hx))
    have haf : (if e.fe_physical % blksz ≠ 0 ∨ e.fe_length % blksz ≠ 0
        then FM_IFLAGS_UNALIGNED else (0 : Nat)).testBit 0 = false := by
      split_ifs <;> decide
    have hc3 : (FM_IFLAGS_FRAGMENTED ||| FM_IFLAGS_UNORDERED).testBit 0 = true := by decide
    have hgapb : ((if e.fe_physical > (s.fe_physical + s.fe_length) % U64
        then FM_IFLAGS_FRAGMENTED else (0 : Nat)).testBit 0 = true)
        ↔ e.fe_physical > s.fe_physical + s.fe_length := by
      rw [hmod]
      by_cases h : e.fe_physical > s.fe_physical + s.fe_length <;>
        simp [h, FM_IFLAGS_FRAGMENTED]
    have hinvb : ((if e.fe_physical < s.fe_physical
        then FM_IFLAGS_FRAGMENTED ||| FM_IFLAGS_UNORDERED else (0 : Nat)).testBit 0 = true)
        ↔ e.fe_physical < s.fe_physical := by
      by_cases h : e.fe_physical < s.fe_physical <;> simp [h, hc3]
    simp only [loopFlags, List.zip_cons_cons, Nat.testBit_or, Bool.or_eq_true, haf,
      Bool.false_eq_true, false_or, or_false, List.mem_cons, exists_eq_or_imp]
    rw [hgapb, hinvb, ihe]

/-- The unordered bit of the classifier output, seeded with a previous
extent `s`: set exactly when some adjacent pair of `s :: l` is
inverted. -/
theorem loopFlags_unord_iff (blksz : Nat) :
    ∀ (l : List FiemapExtent) (s : FiemapExtent),
      ((loopFlags blksz (some (s.fe_physical, s.fe_length)) l).testBit 1 = true ↔
        ∃ p ∈ (s :: l).zip l, p.2.fe_physical < p.1.fe_physical) := by
  intro l
  induction l with
  | nil =>
    intro s
    simp [loopFlags]
  | cons e rest ih =>
    intro s
    have haf : (if e.fe_physical % blksz ≠ 0 ∨ e.fe_length % blksz ≠ 0
        then FM_IFLAGS_UNALIGNED else (0 : Nat)).testBit 1 = false := by
      split_ifs <;> decide
    have hc3 : (FM_IFLAGS_FRAGMENTED ||| FM_IFLAGS_UNORDERED).testBit 1 = true := by decide
    have hgapb : ((if e.fe_physical > (s.fe_physical + s.fe_length) % U64
        then FM_IFLAGS_FRAGMENTED else (0 : Nat)).testBit 1 = false) := by
      split_ifs <;> decide
    have hinvb : ((if e.fe_physical < s.fe_physical
        then FM_IFLAGS_FRAGMENTED ||| FM_IFLAGS_UNORDERED else (0 : Nat)).testBit 1 = true)
        ↔ e.fe_physical < s.fe_physical := by
      by_cases h : e.fe_physical < s.fe_physical <;> simp [h, hc3]
    simp only [loopFlags, List.zip_cons_cons, Nat.testBit_or, Bool.or_eq_true, haf, hgapb,
      Bool.false_eq_true, false_or, or_false, List.mem_cons, exists_eq_or_imp]
    rw [hinvb, ih e]

/-- Claim C1: for every inode inserted into the graph, the classifier
compares each extent (from the second onward) only with its immediate
predecessor in kernel-report order: the installed inode carries the
fragmented flag iff some extent begins strictly after the end of its
predecessor or strictly before its predecessor's offset, and carries
the unordered flag iff some extent begins strictly before its
predecessor's offset.  (The adjacent pairs of the report are
`disk.zip disk.tail`; the overflow hypothesis discharges the `uint64_t`
modulus in `prev_extoff + prev_extlen`.) -/
theorem c1_fragmentation_classifier (blksz : Nat) (st : FmState) (sb : Stat) (ap : List Nat)
    (disk : List FiemapExtent)
    (hnew : findInode st.fmInodes sb.st_ino = none)
    (hov : ∀ e ∈ disk, e.fe_physical + e.fe_length < U64)
    (hok : (fm_scan_extents blksz st sb ap disk).ok = true) :
    ∃ fi, findInode (fm_scan_extents blksz st sb ap disk).st.fmInodes sb.st_ino = some fi ∧
      (fi.flags &&& FM_IFLAGS_FRAGMENTED ≠ 0 ↔
        ∃ p ∈ disk.zip disk.tail,
          p.2.fe_physical > p.1.fe_physical + p.1.fe_length ∨
            p.2.fe_physical < p.1.fe_physical) ∧
      (fi.flags &&& FM_IFLAGS_UNORDERED ≠ 0 ↔
        ∃ p ∈ disk.zip disk.tail, p.2.fe_physical < p.1.fe_physical) := by
  have hsc : fm_scan_extents blksz st sb ap disk = fm_scan_fresh blksz st sb ap disk := by
    simp [fm_scan_extents, hnew]
  rw [hsc] at hok ⊢
  obtain ⟨hloop, -, hino, -, -⟩ := fresh_ok_shape blksz st sb ap disk hok
  have hflags := (scanLoop_ok_out blksz sb.st_ino _ disk none 0 st.fmExtents 0 0
    st.fmIntegralBlksz hloop).1
  rw [show (0 : Nat) ||| loopFlags blksz none disk = loopFlags blksz none disk from by simp]
    at hflags
  rw [hino, findInode_updInode _ sb.st_ino (nameAdd (buildName ap sb.st_mode)) (fun i => rfl),
    findInode_append_right st.fmInodes sb.st_ino _ hnew rfl]
  refine ⟨_, rfl, ?_, ?_⟩
  · show ((nameAdd (buildName ap sb.st_mode) _).flags &&& FM_IFLAGS_FRAGMENTED ≠ 0 ↔ _)
    have hfl : (nameAdd (buildName ap sb.st_mode)
        { inum := sb.st_ino, sb := sb, names := [],
          extcount := (scanLoop blksz sb.st_ino
              (min disk.length (growCap st.fmhExtentCount disk.length)) none 0 disk
              st.fmExtents 0 0 st.fmIntegralBlksz).extcount,
          namecount := 0,
          flags := (scanLoop blksz sb.st_ino
              (min disk.length (growCap st.fmhExtentCount disk.length)) none 0 disk
              st.fmExtents 0 0 st.fmIntegralBlksz).flags } : FmInode).flags
        = loopFlags blksz none disk := by
      simp [nameAdd, hflags]
    rw [hfl, show FM_IFLAGS_FRAGMENTED = 1 from rfl, and_one_ne_iff]
    cases disk with
    | nil => simp [loopFlags]
    | cons d rest =>
      have hbits : (loopFlags blksz none (d :: rest)).testBit 0
          = (loopFlags blksz (some (d.fe_physical, d.fe_length)) rest).testBit 0 := by
        have h4 : FM_IFLAGS_UNALIGNED.testBit 0 = false := by decide
        have h0 : (0 : Nat).testBit 0 = false := by decide
        simp only [loopFlags, Nat.testBit_or]
        split_ifs <;> simp [h4, h0]
      rw [hbits]
      exact loopFlags_frag_iff blksz rest d (hov d (List.mem_cons_self d rest))
        (fun x hx => hov x (List.mem_cons_of_mem d hx))
  · show ((nameAdd (buildName ap sb.st_mode) _).flags &&& FM_IFLAGS_UNORDERED ≠ 0 ↔ _)
    have hfl : (nameAdd (buildName ap sb.st_mode)
        { inum := sb.st_ino, sb := sb, names := [],
          extcount := (scanLoop blksz sb.st_ino
              (min disk.length (growCap st.fmhExtentCount disk.length)) none 0 disk
              st.fmExtents 0 0 st.fmIntegralBlksz).extcount,
          namecount := 0,
          flags := (scanLoop blksz sb.st_ino
              (min disk.length (growCap st.fmhExtentCount disk.length)) none 0 disk
              st.fmExtents 0 0 st.fmIntegralBlksz).flags } : FmInode).flags
        = loopFlags blksz none disk := by
      simp [nameAdd, hflags]
    rw [hfl, show FM_IFLAGS_UNORDERED = 2 from rfl, and_two_ne_iff]
    cases disk with
    | nil => simp [loopFlags]
    | cons d rest =>
      have hbits : (loopFlags blksz none (d :: rest)).testBit 1
          = (loopFlags blksz (some (d.fe_physical, d.fe_length)) rest).testBit 1 := by
        have h4 : FM_IFLAGS_UNALIGNED.testBit 1 = false := by decide
        have h0 : (0 : Nat).testBit 1 = false := by decide
        simp only [loopFlags, Nat.testBit_or]
        split_ifs <;> simp [h4, h0]
      rw [hbits]
      exact loopFlags_unord_iff blksz rest d

theorem c1_fragmentation_classifier_witness :
    (findInode initialState.fmInodes 7 = none ∧
      (∀ e ∈ ([⟨0, 4096, 0⟩, ⟨4096, 4096, 0⟩, ⟨16384, 4096, 1⟩] : List FiemapExtent),
        e.fe_physical + e.fe_length < U64) ∧
      (fm_scan_extents 4096 initialState ⟨7, 1, FileMode.reg, 12288, 4096⟩ [97]
        [⟨0, 4096, 0⟩, ⟨4096, 4096, 0⟩, ⟨16384, 4096, 1⟩]).ok = true) ∧
    (∃ fi, findInode (fm_scan_extents 4096 initialState ⟨7, 1, FileMode.reg, 12288, 4096⟩ [97]
          [⟨0, 4096, 0⟩, ⟨4096, 4096, 0⟩, ⟨16384, 4096, 1⟩]).st.fmInodes 7 = some fi ∧
      (fi.flags &&& FM_IFLAGS_FRAGMENTED ≠ 0 ↔
        ∃ p ∈ ([⟨0, 4096, 0⟩, ⟨4096, 4096, 0⟩, ⟨16384, 4096, 1⟩] : List FiemapExtent).zip
            ([⟨0, 4096, 0⟩, ⟨4096, 4096, 0⟩, ⟨16384, 4096, 1⟩] : List FiemapExtent).tail,
          p.2.fe_physical > p.1.fe_physical + p.1.fe_length ∨
            p.2.fe_physical < p.1.fe_physical) ∧
      (fi.flags &&& FM_IFLAGS_UNORDERED ≠ 0 ↔
        ∃ p ∈ ([⟨0, 4096, 0⟩, ⟨4096, 4096, 0⟩, ⟨16384, 4096, 1⟩] : List FiemapExtent).zip
            ([⟨0, 4096, 0⟩, ⟨4096, 4096, 0⟩, ⟨16384, 4096, 1⟩] : List FiemapExtent).tail,
          p.2.fe_physical < p.1.fe_physical)) ∧
    ((findInode (fm_scan_extents 4096 initialState ⟨7, 1, FileMode.reg, 12288, 4096⟩ [97]
        [⟨0, 4096, 0⟩, ⟨4096, 4096, 0⟩, ⟨16384, 4096, 1⟩]).st.fmInodes 7).map FmInode.flags
      = some 1) ∧
    ((findInode (fm_scan_extents 4096 initialState ⟨7, 1, FileMode.reg, 12288, 4096⟩ [97]
        [⟨4096, 4096, 0⟩, ⟨0, 4096, 0⟩, ⟨16384, 4096, 1⟩]).st.fmInodes 7).map FmInode.flags
      = some 3) :=
  ⟨⟨by decide, by decide, by decide⟩,
    c1_fragmentation_classifier 4096 initialState ⟨7, 1, FileMode.reg, 12288, 4096⟩ [97]
      [⟨0, 4096, 0⟩, ⟨4096, 4096, 0⟩, ⟨16384, 4096, 1⟩] (by decide) (by decide) (by decide),
    by decide, by decide⟩

/-! ## C3: hardlink aggregation -/

/-- The already-present branch of `fm_scan_extents` (a hardlink to a
previously-seen inode): always succeeds, skips the extent query, only
appends one name to the existing inode, and creates no inode. -/
theorem scan_existing_shape (blksz : Nat) (st : FmState) (sb : Stat) (ap : List Nat)
    (disk : List FiemapExtent) (fi : FmInode)
    (hf : findInode st.fmInodes sb.st_ino = some fi) :
    (fm_scan_extents blksz st sb ap disk).ok = true ∧
    (fm_scan_extents blksz st sb ap disk).queried = false ∧
    (fm_scan_extents blksz st sb ap disk).st.fmInodes
      = updInode st.fmInodes sb.st_ino (nameAdd (buildName ap sb.st_mode)) ∧
    (fm_scan_extents blksz st sb ap disk).st.fmInodeCount = st.fmInodeCount := by
  have h := finishName_shape st sb ap false
  simp only [fm_scan_extents, hf]
  exact ⟨h.1, h.2.1, h.2.2.2.1, h.2.2.2.2.2.1⟩

/-- On a successful first-time scan, one inode is created for the key:
it has one name, its extent count is the full report length, the
kernel extent query happened, and the key now occurs exactly once in
the inode table. -/
theorem fresh_ok_inode (blksz : Nat) (st : FmState) (sb : Stat) (ap : List Nat)
    (disk : List FiemapExtent)
    (hnew : findInode st.fmInodes sb.st_ino = none)
    (hok : (fm_scan_extents blksz st sb ap disk).ok = true) :
    ∃ fi, findInode (fm_scan_extents blksz st sb ap disk).st.fmInodes sb.st_ino = some fi ∧
      fi.namecount = 1 ∧ fi.extcount = disk.length ∧
      (fm_scan_extents blksz st sb ap disk).st.fmInodes.countP
        (fun i => i.inum == sb.st_ino) = 1 ∧
      (fm_scan_extents blksz st sb ap disk).st.fmInodeCount = st.fmInodeCount + 1 ∧
      (fm_scan_extents blksz st sb ap disk).queried = true := by
  have hsc : fm_scan_extents blksz st sb ap disk = fm_scan_fresh blksz st sb ap disk := by
    simp [fm_scan_extents, hnew]
  rw [hsc] at hok ⊢
  obtain ⟨hloop, -, hino, hicnt, hq⟩ := fresh_ok_shape blksz st sb ap disk hok
  have hext := (scanLoop_ok_out blksz sb.st_ino _ disk none 0 st.fmExtents 0 0
    st.fmIntegralBlksz hloop).2
  rw [Nat.zero_add] at hext
  have hfind : findInode (fm_scan_fresh blksz st sb ap disk).st.fmInodes sb.st_ino
      = some (nameAdd (buildName ap sb.st_mode)
          { inum := sb.st_ino, sb := sb, names := [],
            extcount := (scanLoop blksz sb.st_ino
                (min disk.length (growCap st.fmhExtentCount disk.length)) none 0 disk
                st.fmExtents 0 0 st.fmIntegralBlksz).extcount,
            namecount := 0,
            flags := (scanLoop blksz sb.st_ino
                (min disk.length (growCap st.fmhExtentCount disk.length)) none 0 disk
                st.fmExtents 0 0 st.fmIntegralBlksz).flags }) := by
    rw [hino, findInode_updInode _ sb.st_ino (nameAdd (buildName ap sb.st_mode)) (fun i => rfl),
      findInode_append_right st.fmInodes sb.st_ino _ hnew rfl]
    rfl
  have hcnt : (fm_scan_fresh blksz st sb ap disk).st.fmInodes.countP
      (fun i => i.inum == sb.st_ino) = 1 := by
    rw [hino, updInode_countP _ sb.st_ino (nameAdd (buildName ap sb.st_mode)) (fun i => rfl),
      List.countP_append, findInode_none_countP st.fmInodes sb.st_ino hnew]
    simp
  exact ⟨_, hfind, rfl, hext, hcnt, hicnt, hq⟩

/-- Folding further requests for an inode that is already present: all
succeed, none queries, no inode is created, and each appends exactly
one name. -/
theorem fm_scan_many_existing (blksz k : Nat) :
    ∀ (reqs : List Req) (st : FmState) (fi : FmInode),
      (∀ r ∈ reqs, r.sb.st_ino = k) →
      findInode st.fmInodes k = some fi →
      st.fmInodes.countP (fun i => i.inum == k) = 1 →
      (fm_scan_many blksz st reqs).1 = true ∧
      (fm_scan_many blksz st reqs).2.2 = 0 ∧
      (fm_scan_many blksz st reqs).2.1.fmInodes.countP (fun i => i.inum == k) = 1 ∧
      (fm_scan_many blksz st reqs).2.1.fmInodeCount = st.fmInodeCount ∧
      ∃ fi2, findInode (fm_scan_many blksz st reqs).2.1.fmInodes k = some fi2 ∧
        fi2.namecount = fi.namecount + reqs.length ∧ fi2.extcount = fi.extcount := by
  intro reqs
  induction reqs with
  | nil =>
    intro st fi hk hf hcnt
    exact ⟨rfl, rfl, hcnt, rfl, fi, hf, by simp, rfl⟩
  | cons r rs ih =>
    intro st fi hk hf hcnt
    have hrk : r.sb.st_ino = k := hk r (List.mem_cons_self r rs)
    have hf2 : findInode st.fmInodes r.sb.st_ino = some fi := by rw [hrk]; exact hf
    obtain ⟨hok, hq, hupd, hic⟩ := scan_existing_shape blksz st r.sb r.abspath r.disk fi hf2
    have hf3 : findInode (fm_scan_extents blksz st r.sb r.abspath r.disk).st.fmInodes k
        = some (nameAdd (buildName r.abspath r.sb.st_mode) fi) := by
      rw [hupd, hrk, findInode_updInode _ k (nameAdd (buildName r.abspath r.sb.st_mode))
        (fun i => rfl), hf]
      rfl
    have hcnt2 : (fm_scan_extents blksz st r.sb r.abspath r.disk).st.fmInodes.countP
        (fun i => i.inum == k) = 1 := by
      rw [hupd, hrk,
        updInode_countP _ k (nameAdd (buildName r.abspath r.sb.st_mode)) (fun i => rfl)]
      exact hcnt
    obtain ⟨hok2, hz, hcnt3, hicnt3, fi2, hfind2, hnc2, hec2⟩ :=
      ih (fm_scan_extents blksz st r.sb r.abspath r.disk).st
        (nameAdd (buildName r.abspath r.sb.st_mode) fi) (fun x hx => hk x (by simp [hx]))
        hf3 hcnt2
    simp only [fm_scan_many, hok, if_true, hq, if_false]
    refine ⟨hok2, by simpa using hz, hcnt3, by rw [hicnt3, hic], fi2, hfind2, ?_, hec2⟩
    rw [hnc2]
    simp [nameAdd]
    omega

/-- Claim C3: for every set of `N` names resolving to the same inode
number during one scan, exactly one inode record is created (on the
first name), its `namecount` equals `N`, its `extcount` comes from
exactly one kernel extent query (the first request's report), and the
later calls skip the extent query entirely (exactly one query is
counted over the whole sequence). -/
theorem c3_hardlink_aggregation (blksz k : Nat) (st : FmState) (r0 : Req) (rest : List Req)
    (hk : ∀ r ∈ r0 :: rest, r.sb.st_ino = k)
    (hnew : findInode st.fmInodes k = none)
    (hok : (fm_scan_extents blksz st r0.sb r0.abspath r0.disk).ok = true) :
    (fm_scan_many blksz st (r0 :: rest)).1 = true ∧
    (fm_scan_many blksz st (r0 :: rest)).2.2 = 1 ∧
    (fm_scan_many blksz st (r0 :: rest)).2.1.fmInodes.countP (fun i => i.inum == k) = 1 ∧
    (fm_scan_many blksz st (r0 :: rest)).2.1.fmInodeCount = st.fmInodeCount + 1 ∧
    ∃ fi, findInode (fm_scan_many blksz st (r0 :: rest)).2.1.fmInodes k = some fi ∧
      fi.namecount = (r0 :: rest).length ∧ fi.extcount = r0.disk.length := by
  have hr0k : r0.sb.st_ino = k := hk r0 (List.mem_cons_self r0 rest)
  have hnew2 : findInode st.fmInodes r0.sb.st_ino = none := by rw [hr0k]; exact hnew
  obtain ⟨fi1, hfind1, hnc1, hec1, hcnt1, hicnt1, hq1⟩ :=
    fresh_ok_inode blksz st r0.sb r0.abspath r0.disk hnew2 hok
  have hfind1k : findInode (fm_scan_extents blksz st r0.sb r0.abspath r0.disk).st.fmInodes k
      = some fi1 := by rw [← hr0k]; exact hfind1
  have hcnt1k : (fm_scan_extents blksz st r0.sb r0.abspath r0.disk).st.fmInodes.countP
      (fun i => i.inum == k) = 1 := by rw [← hr0k]; exact hcnt1
  obtain ⟨hok2, hz, hcnt3, hicnt3, fi2, hfind2, hnc2, hec2⟩ :=
    fm_scan_many_existing blksz k rest (fm_scan_extents blksz st r0.sb r0.abspath r0.disk).st
      fi1 (fun x hx => hk x (by simp [hx])) hfind1k hcnt1k
  simp only [fm_scan_many, hok, if_true, hq1, if_true]
  refine ⟨hok2, by simp [hz], hcnt3, by rw [hicnt3, hicnt1], fi2, hfind2, ?_, by rw [hec2, hec1]⟩
  rw [hnc2, hnc1]
  simp only [List.length_cons]
  omega

/-- Three names for inode 5: the first query reports one extent; the
later calls pass an empty report, which would fail if it were queried —
the scan still succeeds because hardlinks skip the query. -/
theorem c3_hardlink_aggregation_witness :
    (∀ r ∈ ([⟨⟨5, 1, FileMode.reg, 4096, 4096⟩, [110], [⟨4096, 4096, 1⟩]⟩,
        ⟨⟨5, 1, FileMode.reg, 4096, 4096⟩, [111], []⟩,
        ⟨⟨5, 1, FileMode.reg, 4096, 4096⟩, [112], []⟩] : List Req), r.sb.st_ino = 5) ∧
    findInode initialState.fmInodes 5 = none ∧
    (fm_scan_many 4096 initialState
      [⟨⟨5, 1, FileMode.reg, 4096, 4096⟩, [110], [⟨4096, 4096, 1⟩]⟩,
       ⟨⟨5, 1, FileMode.reg, 4096, 4096⟩, [111], []⟩,
       ⟨⟨5, 1, FileMode.reg, 4096, 4096⟩, [112], []⟩]).2.2 = 1 ∧
    (∃ fi, findInode (fm_scan_many 4096 initialState
        [⟨⟨5, 1, FileMode.reg, 4096, 4096⟩, [110], [⟨4096, 4096, 1⟩]⟩,
         ⟨⟨5, 1, FileMode.reg, 4096, 4096⟩, [111], []⟩,
         ⟨⟨5, 1, FileMode.reg, 4096, 4096⟩, [112], []⟩]).2.1.fmInodes 5 = some fi ∧
      fi.namecount = 3 ∧ fi.extcount = 1) := by
  refine ⟨by decide, by decide, ?_, ?_⟩
  · exact (c3_hardlink_aggregation 4096 5 initialState
      ⟨⟨5, 1, FileMode.reg, 4096, 4096⟩, [110], [⟨4096, 4096, 1⟩]⟩
      [⟨⟨5, 1, FileMode.reg, 4096, 4096⟩, [111], []⟩,
       ⟨⟨5, 1, FileMode.reg, 4096, 4096⟩, [112], []⟩]
      (by decide) (by decide) (by decide)).2.1
  · exact (c3_hardlink_aggregation 4096 5 initialState
      ⟨⟨5, 1, FileMode.reg, 4096, 4096⟩, [110], [⟨4096, 4096, 1⟩]⟩
      [⟨⟨5, 1, FileMode.reg, 4096, 4096⟩, [111], []⟩,
       ⟨⟨5, 1, FileMode.reg, 4096, 4096⟩, [112], []⟩]
      (by decide) (by decide) (by decide)).2.2.2.2

/-! ## C7: the name list stays sorted -/

theorem updInode_nameAdd_sorted (l : List FmInode) (k : Nat) (nm : List Nat)
    (h : ∀ i ∈ l, NameListSorted i.names) :
    ∀ i ∈ updInode l k (nameAdd nm), NameListSorted i.names := by
  intro i hi
  rcases List.mem_map.mp hi with ⟨j, hj, rfl⟩
  by_cases hk : (j.inum == k) = true
  · simp only [hk, if_true]
    exact nameSort_sorted _
  · simp only [hk, Bool.false_eq_true, if_false]
    exact h j hj

/-- A failed first-time scan leaves the inode table unchanged. -/
theorem fresh_fail_inodes (blksz : Nat) (st : FmState) (sb : Stat) (ap : List Nat)
    (disk : List FiemapExtent)
    (hok : (fm_scan_fresh blksz st sb ap disk).ok = false) :
    (fm_scan_fresh blksz st sb ap disk).st.fmInodes = st.fmInodes := by
  by_cases hm : min disk.length (growCap st.fmhExtentCount disk.length)
      = growCap st.fmhExtentCount disk.length
  · simp [fm_scan_fresh, hm]
  · by_cases hl : (scanLoop blksz sb.st_ino
        (min disk.length (growCap st.fmhExtentCount disk.length)) none 0
        (disk.take (min disk.length (growCap st.fmhExtentCount disk.length)))
        st.fmExtents 0 0 st.fmIntegralBlksz).ok = true
    · exfalso
      simp [fm_scan_fresh, hm, hl, finishName] at hok
    · rw [Bool.not_eq_true] at hl
      simp [fm_scan_fresh, hm, hl]

/-- Claim C7: after every `fm_scan_extents` call, exactly one name has
been appended to the target inode (on success), the target inode's name
list is sorted by `strcmp`, and — given the invariant held before the
call — every inode's name list in the result is sorted, so the head of
each list is always an alphabetically-least name.  This is the
invariant maintained by `DL_APPEND` + `DL_SORT` with
`fm_sortby_filename_cb`. -/
theorem c7_name_list_sorted (blksz : Nat) (st : FmState) (sb : Stat) (ap : List Nat)
    (disk : List FiemapExtent) :
    ((∀ fi ∈ st.fmInodes, NameListSorted fi.names) →
      ∀ fi ∈ (fm_scan_extents blksz st sb ap disk).st.fmInodes, NameListSorted fi.names) ∧
    ((fm_scan_extents blksz st sb ap disk).ok = true →
      (∀ fi0, findInode st.fmInodes sb.st_ino = some fi0 →
        ∃ fi, findInode (fm_scan_extents blksz st sb ap disk).st.fmInodes sb.st_ino = some fi ∧
          fi.names.Perm (fi0.names ++ [buildName ap sb.st_mode]) ∧
          fi.names.length = fi0.names.length + 1 ∧
          NameListSorted fi.names ∧
          fi.namecount = fi0.namecount + 1) ∧
      (findInode st.fmInodes sb.st_ino = none →
        ∃ fi, findInode (fm_scan_extents blksz st sb ap disk).st.fmInodes sb.st_ino = some fi ∧
          fi.names = [buildName ap sb.st_mode] ∧ fi.namecount = 1)) ∧
    ((∀ fi ∈ st.fmInodes, NameListSorted fi.names) →
      ∀ fi ∈ (fm_scan_extents blksz st sb ap disk).st.fmInodes,
        ∀ nm ∈ fi.names, strcmp (fi.names.headD []) nm ≤ 0) := by
  have hsorted : (∀ fi ∈ st.fmInodes, NameListSorted fi.names) →
      ∀ fi ∈ (fm_scan_extents blksz st sb ap disk).st.fmInodes, NameListSorted fi.names := by
    intro h
    rcases hf : findInode st.fmInodes sb.st_ino with _ | fi0
    · have hsc : fm_scan_extents blksz st sb ap disk = fm_scan_fresh blksz st sb ap disk := by
        simp [fm_scan_extents, hf]
      rw [hsc]
      cases hok : (fm_scan_fresh blksz st sb ap disk).ok with
      | false =>
        rw [fresh_fail_inodes blksz st sb ap disk hok]
        exact h
      | true =>
        obtain ⟨-, -, hino, -, -⟩ := fresh_ok_shape blksz st sb ap disk hok
        rw [hino]
        apply updInode_nameAdd_sorted
        intro i hi
        rcases List.mem_append.mp hi with hi | hi
        · exact h i hi
        · rcases List.mem_singleton.mp hi with rfl
          exact List.Pairwise.nil
    · obtain ⟨-, -, hupd, -⟩ := scan_existing_shape blksz st sb ap disk fi0 hf
      rw [hupd]
      exact updInode_nameAdd_sorted st.fmInodes sb.st_ino _ h
  refine ⟨hsorted, ?_, ?_⟩
  · intro hok
    constructor
    · intro fi0 hf
      obtain ⟨-, -, hupd, -⟩ := scan_existing_shape blksz st sb ap disk fi0 hf
      refine ⟨nameAdd (buildName ap sb.st_mode) fi0, ?_, ?_, ?_, nameSort_sorted _, rfl⟩
      · rw [hupd, findInode_updInode _ sb.st_ino (nameAdd (buildName ap sb.st_mode))
          (fun i => rfl), hf]
        rfl
      · exact nameSort_perm _
      · rw [show (nameAdd (buildName ap sb.st_mode) fi0).names
            = nameSort (fi0.names ++ [buildName ap sb.st_mode]) from rfl, nameSort_length]
        simp
    · intro hf
      have hsc : fm_scan_extents blksz st sb ap disk = fm_scan_fresh blksz st sb ap disk := by
        simp [fm_scan_extents, hf]
      rw [hsc] at hok ⊢
      obtain ⟨-, -, hino, -, -⟩ := fresh_ok_shape blksz st sb ap disk hok
      have hfind : findInode (fm_scan_fresh blksz st sb ap disk).st.fmInodes sb.st_ino
          = some (nameAdd (buildName ap sb.st_mode)
              { inum := sb.st_ino, sb := sb, names := [],
                extcount := (scanLoop blksz sb.st_ino
                    (min disk.length (growCap st.fmhExtentCount disk.length)) none 0 disk
                    st.fmExtents 0 0 st.fmIntegralBlksz).extcount,
                namecount := 0,
                flags := (scanLoop blksz sb.st_ino
                    (min disk.length (growCap st.fmhExtentCount disk.length)) none 0 disk
                    st.fmExtents 0 0 st.fmIntegralBlksz).flags }) := by
        rw [hino, findInode_updInode _ sb.st_ino (nameAdd (buildName ap sb.st_mode))
          (fun i => rfl), findInode_append_right st.fmInodes sb.st_ino _ hf rfl]
        rfl
      exact ⟨_, hfind, rfl, rfl⟩
  · intro h fi hfi nm hnm
    exact sorted_head_min fi.names (hsorted h fi hfi) nm hnm

/-- Two names for inode 6, the second alphabetically smaller: after the
second call the head of the name list is the new, smaller name. -/
theorem c7_name_list_sorted_witness :
    ((fm_scan_extents 4096
        (fm_scan_extents 4096 initialState ⟨6, 1, FileMode.reg, 4096, 4096⟩ [120]
          [⟨12288, 4096, 1⟩]).st
        ⟨6, 1, FileMode.reg, 4096, 4096⟩ [97] []).ok = true) ∧
    findInode (fm_scan_extents 4096 initialState ⟨6, 1, FileMode.reg, 4096, 4096⟩ [120]
        [⟨12288, 4096, 1⟩]).st.fmInodes 6
      = some ⟨6, ⟨6, 1, FileMode.reg, 4096, 4096⟩, [[120]], 1, 1, 0⟩ ∧
    (∃ fi, findInode (fm_scan_extents 4096
        (fm_scan_extents 4096 initialState ⟨6, 1, FileMode.reg, 4096, 4096⟩ [120]
          [⟨12288, 4096, 1⟩]).st
        ⟨6, 1, FileMode.reg, 4096, 4096⟩ [97] []).st.fmInodes 6 = some fi ∧
      fi.names.Perm (([[120]] : List (List Nat)) ++ [buildName [97] FileMode.reg]) ∧
      fi.names.length = ([[120]] : List (List Nat)).length + 1 ∧
      NameListSorted fi.names ∧
      fi.namecount = 1 + 1) ∧
    ((findInode (fm_scan_extents 4096
        (fm_scan_extents 4096 initialState ⟨6, 1, FileMode.reg, 4096, 4096⟩ [120]
          [⟨12288, 4096, 1⟩]).st
        ⟨6, 1, FileMode.reg, 4096, 4096⟩ [97] []).st.fmInodes 6).map FmInode.names
      = some [[97], [120]]) := by
  refine ⟨by decide, by decide, ?_, by decide⟩
  exact ((c7_name_list_sorted 4096
      (fm_scan_extents 4096 initialState ⟨6, 1, FileMode.reg, 4096, 4096⟩ [120]
        [⟨12288, 4096, 1⟩]).st
      ⟨6, 1, FileMode.reg, 4096, 4096⟩ [97] []).2.1 (by decide)).1
    ⟨6, ⟨6, 1, FileMode.reg, 4096, 4096⟩, [[120]], 1, 1, 0⟩ (by decide)

/-! ## C4: fail-fast propagation to main -/

/-- With no per-extent allocation failure, the refined loop is the
plain loop. -/
theorem scanLoopAlloc_none (blksz inum mapped : Nat) :
    ∀ (exts : List FiemapExtent) (prev : Option (Nat × Nat)) (i : Nat) (ge : List FmExtent)
      (flags extcount : Nat) (integral : Bool),
      scanLoopAlloc blksz inum mapped none prev i exts ge flags extcount integral
        = scanLoop blksz inum mapped prev i exts ge flags extcount integral := by
  intro exts
  induction exts with
  | nil => intro prev i ge fl ec itg; rfl
  | cons e rest ih =>
    intro prev i ge fl ec itg
    cases hfe : findExtent ge e.fe_physical with
    | some g => simp [scanLoopAlloc, scanLoop, hfe]
    | none =>
      simp only [scanLoopAlloc, scanLoop, hfe]
      rw [if_neg (by simp : ¬ ((none : Option Nat) = some i))]
      by_cases htr : (i + 1 = mapped ∧ e.fe_flags &&& FIEMAP_EXTENT_LAST = 0)
      · simp [htr]
      · simp only [if_neg htr]
        exact ih _ _ _ _ _ _

/-- With the all-success oracle, the allocation-refined scanner is
exactly `fm_scan_extents`: the refinement only adds the C allocation
failure paths. -/
theorem fm_scan_extents_alloc_allocOk (blksz : Nat) (st : FmState) (sb : Stat) (ap : List Nat)
    (disk : List FiemapExtent) :
    fm_scan_extents_alloc blksz allocOk st sb ap disk = fm_scan_extents blksz st sb ap disk := by
  rcases hf : findInode st.fmInodes sb.st_ino with _ | fi
  · simp only [fm_scan_extents_alloc, fm_scan_extents, hf, fm_scan_fresh_alloc, fm_scan_fresh,
      allocOk]
    rw [scanLoopAlloc_none]
    simp
  · simp [fm_scan_extents_alloc, fm_scan_extents, hf, allocOk]

/-- A failed `fm_name` allocation (line 165) always makes the scan
fail: the site is reached on every otherwise-successful path of both
branches, and every other path has already failed. -/
theorem scan_alloc_fnFail (blksz : Nat) (o : AllocOracle) (st : FmState) (sb : Stat)
    (ap : List Nat) (disk : List FiemapExtent) (h : o.fnFail = true) :
    (fm_scan_extents_alloc blksz o st sb ap disk).ok = false := by
  rcases hf : findInode st.fmInodes sb.st_ino with _ | fi
  · simp only [fm_scan_extents_alloc, hf, fm_scan_fresh_alloc]
    by_cases h1 : (st.fmhExtentCount ≤ disk.length ∧ o.reallocFail = true)
    · simp [h1]
    · by_cases h2 : min disk.length (growCap st.fmhExtentCount disk.length)
          = growCap st.fmhExtentCount disk.length
      · simp [h1, h2]
      · by_cases h3 : o.fiFail = true
        · simp [h1, h2, h3]
        · by_cases h4 : (scanLoopAlloc blksz sb.st_ino
              (min disk.length (growCap st.fmhExtentCount disk.length)) o.feFailAt none 0
              (disk.take (min disk.length (growCap st.fmhExtentCount disk.length)))
              st.fmExtents 0 0 st.fmIntegralBlksz).ok = true
          · simp [h1, h2, h3, h4, h]
          · rw [Bool.not_eq_true] at h4
            simp [h1, h2, h3, h4]
  · simp [fm_scan_extents_alloc, hf, h]

/-- A failed `fm_inode` allocation (line 91) makes every first-time
scan fail. -/
theorem scan_alloc_fiFail (blksz : Nat) (o : AllocOracle) (st : FmState) (sb : Stat)
    (ap : List Nat) (disk : List FiemapExtent)
    (hnew : findInode st.fmInodes sb.st_ino = none) (h : o.fiFail = true) :
    (fm_scan_extents_alloc blksz o st sb ap disk).ok = false := by
  simp only [fm_scan_extents_alloc, hnew, fm_scan_fresh_alloc]
  by_cases h1 : (st.fmhExtentCount ≤ disk.length ∧ o.reallocFail = true)
  · simp [h1]
  · by_cases h2 : min disk.length (growCap st.fmhExtentCount disk.length)
        = growCap st.fmhExtentCount disk.length
    · simp [h1, h2]
    · simp [h1, h2, h]

/-- A failed scratch-buffer `realloc` (line 66) makes every first-time
scan that grows the buffer fail. -/
theorem scan_alloc_reallocFail (blksz : Nat) (o : AllocOracle) (st : FmState) (sb : Stat)
    (ap : List Nat) (disk : List FiemapExtent)
    (hnew : findInode st.fmInodes sb.st_ino = none)
    (hgrow : st.fmhExtentCount ≤ disk.length) (h : o.reallocFail = true) :
    (fm_scan_extents_alloc blksz o st sb ap disk).ok = false := by
  simp [fm_scan_extents_alloc, hnew, fm_scan_fresh_alloc, hgrow, h]

/-- The refined loop fails whenever the failing allocation index lies
within the extents it would process. -/
theorem scanLoopAlloc_feFail (blksz inum mapped j : Nat) :
    ∀ (exts : List FiemapExtent) (prev : Option (Nat × Nat)) (i : Nat) (ge : List FmExtent)
      (flags extcount : Nat) (integral : Bool),
      i ≤ j → j < i + exts.length →
      (scanLoopAlloc blksz inum mapped (some j) prev i exts ge flags extcount integral).ok
        = false := by
  intro exts
  induction exts with
  | nil =>
    intro prev i ge fl ec itg h1 h2
    simp at h2
    omega
  | cons e rest ih =>
    intro prev i ge fl ec itg h1 h2
    cases hfe : findExtent ge e.fe_physical with
    | some g => simp [scanLoopAlloc, hfe]
    | none =>
      by_cases hj : j = i
      · subst hj
        simp [scanLoopAlloc, hfe]
      · have h1' : i + 1 ≤ j := by omega
        have h2' : j < (i + 1) + rest.length := by
          simp only [List.length_cons] at h2
          omega
        by_cases htr : (i + 1 = mapped ∧ e.fe_flags &&& FIEMAP_EXTENT_LAST = 0)
        · simp [scanLoopAlloc, hfe, hj, htr]
        · simp only [scanLoopAlloc, hfe]
          rw [if_neg (by simp [hj] : ¬ ((some j : Option Nat) = some i)), if_neg htr]
          exact ih _ _ _ _ _ _ h1' h2'

/-- A failed `fm_extent` allocation (line 113) at an index inside the
report makes every first-time scan fail. -/
theorem scan_alloc_feFail (blksz : Nat) (o : AllocOracle) (st : FmState) (sb : Stat)
    (ap : List Nat) (disk : List FiemapExtent) (j : Nat)
    (hnew : findInode st.fmInodes sb.st_ino = none)
    (hfe : o.feFailAt = some j) (hlt : j < disk.length) :
    (fm_scan_extents_alloc blksz o st sb ap disk).ok = false := by
  simp only [fm_scan_extents_alloc, hnew, fm_scan_fresh_alloc]
  by_cases h1 : (st.fmhExtentCount ≤ disk.length ∧ o.reallocFail = true)
  · simp [h1]
  · by_cases h2 : min disk.length (growCap st.fmhExtentCount disk.length)
        = growCap st.fmhExtentCount disk.length
    · simp [h1, h2]
    · by_cases h3 : o.fiFail = true
      · simp [h1, h2, h3]
      · have hmap : min disk.length (growCap st.fmhExtentCount disk.length) = disk.length := by
          rcases Nat.le_total disk.length (growCap st.fmhExtentCount disk.length) with h | h
          · exact min_eq_left h
          · exact absurd (min_eq_right h) h2
        have hl : (scanLoopAlloc blksz sb.st_ino
            (min disk.length (growCap st.fmhExtentCount disk.length)) o.feFailAt none 0
            (disk.take (min disk.length (growCap st.fmhExtentCount disk.length)))
            st.fmExtents 0 0 st.fmIntegralBlksz).ok = false := by
          rw [hmap, List.take_length, hfe]
          exact scanLoopAlloc_feFail blksz sb.st_ino disk.length j disk none 0 st.fmExtents
            0 0 st.fmIntegralBlksz (Nat.zero_le j) (by simpa using hlt)
        simp [h1, h2, h3, hl]

/-- The entry loop processes an appended listing compositionally: first
the prefix; the suffix runs only if the prefix succeeded, from the
prefix's final state. -/
theorem walk_append (sf sd : Bool) (blksz : Nat) (suf : List Ent) :
    ∀ (pre : List Ent) (st : FmState),
      fm_walk_entries sf sd blksz (pre ++ suf) st
        = (if (fm_walk_entries sf sd blksz pre st).1 = true
           then fm_walk_entries sf sd blksz suf (fm_walk_entries sf sd blksz pre st).2
           else fm_walk_entries sf sd blksz pre st) := by
  intro pre
  induction pre with
  | nil => intro st; simp [fm_walk_entries]
  | cons e rest ih =>
    intro st
    cases e with
    | efile sb nm disk o =>
      by_cases hok : (fm_scan_extents_alloc blksz o st sb nm disk).ok = true
      · simp only [List.cons_append, fm_walk_entries, hok, eq_self_iff_true, if_true]
        exact ih _
      · rw [Bool.not_eq_true] at hok
        simp [fm_walk_entries, hok]
    | edir dsb nm fsf fdf ddisk da sub =>
      rcases hres : fm_scan_directory sf sd blksz dsb nm fsf fdf ddisk da sub st with ⟨ok, st1⟩
      cases ok
      · simp [fm_walk_entries, hres]
      · simp only [List.cons_append, fm_walk_entries, hres]
        exact ih st1
    | edot =>
      simp only [List.cons_append, fm_walk_entries]
      exact ih st
    | ereaddirFail => simp [fm_walk_entries]
    | estatFail => simp [fm_walk_entries]
    | eotherDev =>
      simp only [List.cons_append, fm_walk_entries]
      exact ih st
    | eotherType =>
      simp only [List.cons_append, fm_walk_entries]
      exact ih st
    | eopenFail => simp [fm_walk_entries]
    | efstatFail => simp [fm_walk_entries]
    | eotherDevAfterOpen =>
      simp only [List.cons_append, fm_walk_entries]
      exact ih st

mutual

/-- If some entry of a directory listing injects a certain failure, the
entry loop returns `false`. -/
theorem walk_fail_of_hasFail (sf sd : Bool) (blksz : Nat) (ents : List Ent) (st : FmState)
    (h : entsHaveFail sf sd ents = true) :
    (fm_walk_entries sf sd blksz ents st).1 = false := by
  cases ents with
  | nil => simp [entsHaveFail] at h
  | cons e rest =>
    rw [entsHaveFail, Bool.or_eq_true] at h
    cases e with
    | efile sb nm disk o =>
      by_cases hok : (fm_scan_extents_alloc blksz o st sb nm disk).ok = true
      · have hrest : entsHaveFail sf sd rest = true := by
          rcases h with h | h
          · exact absurd hok (by simp [scan_alloc_fnFail blksz o st sb nm disk
              (by simpa [entHasFail] using h)])
          · exact h
        simp only [fm_walk_entries, hok, eq_self_iff_true, if_true]
        exact walk_fail_of_hasFail sf sd blksz rest _ hrest
      · rw [Bool.not_eq_true] at hok
        simp [fm_walk_entries, hok]
    | edir dsb nm fsf fdf ddisk da sub =>
      rcases h with h | h
      · have hd : (fm_scan_directory sf sd blksz dsb nm fsf fdf ddisk da sub st).1 = false :=
          dir_fail_of_hasFail sf sd blksz dsb nm fsf fdf ddisk da sub st
            (by simpa [entHasFail] using h)
        rcases hres : fm_scan_directory sf sd blksz dsb nm fsf fdf ddisk da sub st
          with ⟨ok, st1⟩
        rw [hres] at hd
        simp only at hd
        subst hd
        simp [fm_walk_entries, hres]
      · rcases hres : fm_scan_directory sf sd blksz dsb nm fsf fdf ddisk da sub st
          with ⟨ok, st1⟩
        cases ok
        · simp [fm_walk_entries, hres]
        · simp only [fm_walk_entries, hres]
          exact walk_fail_of_hasFail sf sd blksz rest st1 h
    | edot =>
      have hrest : entsHaveFail sf sd rest = true := by
        rcases h with h | h
        · simp [entHasFail] at h
        · exact h
      simp only [fm_walk_entries]
      exact walk_fail_of_hasFail sf sd blksz rest st hrest
    | ereaddirFail => simp [fm_walk_entries]
    | estatFail => simp [fm_walk_entries]
    | eotherDev =>
      have hrest : entsHaveFail sf sd rest = true := by
        rcases h with h | h
        · simp [entHasFail] at h
        · exact h
      simp only [fm_walk_entries]
      exact walk_fail_of_hasFail sf sd blksz rest st hrest
    | eotherType =>
      have hrest : entsHaveFail sf sd rest = true := by
        rcases h with h | h
        · simp [entHasFail] at h
        · exact h
      simp only [fm_walk_entries]
      exact walk_fail_of_hasFail sf sd blksz rest st hrest
    | eopenFail => simp [fm_walk_entries]
    | efstatFail => simp [fm_walk_entries]
    | eotherDevAfterOpen =>
      have hrest : entsHaveFail sf sd rest = true := by
        rcases h with h | h
        · simp [entHasFail] at h
        · exact h
      simp only [fm_walk_entries]
      exact walk_fail_of_hasFail sf sd blksz rest st hrest

/-- If a directory's own fsync (in sync mode) or `fdopendir` fails, its
own-scan name allocation fails (in `-d` mode), or some entry below it
injects a certain failure, `fm_scan_directory` returns `false`. -/
theorem dir_fail_of_hasFail (sf sd : Bool) (blksz : Nat) (dsb : Stat) (nm : List Nat)
    (fsf fdf : Bool) (ddisk : List FiemapExtent) (da : AllocOracle) (sub : List Ent)
    (st : FmState)
    (h : ((sf && fsf) || fdf || (sd && da.fnFail) || entsHaveFail sf sd sub) = true) :
    (fm_scan_directory sf sd blksz dsb nm fsf fdf ddisk da sub st).1 = false := by
  by_cases h1 : (sf = true ∧ fsf = true)
  · simp [fm_scan_directory, h1]
  · by_cases h2 : fdf = true
    · simp [fm_scan_directory, h1, h2]
    · have hrem : ((sd && da.fnFail) = true) ∨ entsHaveFail sf sd sub = true := by
        rcases Bool.or_eq_true_iff.mp h with h | h
        · rcases Bool.or_eq_true_iff.mp h with h | h
          · rcases Bool.or_eq_true_iff.mp h with h | h
            · exact absurd (Bool.and_eq_true_iff.mp h) h1
            · exact absurd h h2
          · exact Or.inl h
        · exact Or.inr h
      rcases hrem with hb | hw
      · obtain ⟨hsd, hfn⟩ := Bool.and_eq_true_iff.mp hb
        subst hsd
        rcases hres : fm_walk_entries sf true blksz sub st with ⟨ok, st1⟩
        cases ok
        · simp [fm_scan_directory, h1, h2, hres]
        · have hscan := scan_alloc_fnFail blksz da st1 dsb nm ddisk hfn
          simp [fm_scan_directory, h1, h2, hres, hscan]
      · have hw2 : (fm_walk_entries sf sd blksz sub st).1 = false :=
          walk_fail_of_hasFail sf sd blksz sub st hw
        rcases hres : fm_walk_entries sf sd blksz sub st with ⟨ok, st1⟩
        rw [hres] at hw2
        simp only at hw2
        subst hw2
        simp [fm_scan_directory, h1, h2, hres]

end

/-- A nested `fm_scan_extents` failure — whatever its cause: duplicate
offset, truncation, or any allocation failure — aborts the entry loop
of the directory containing the file. -/
theorem walk_nested_file_fail (sf sd : Bool) (blksz : Nat) (pre rest : List Ent) (sb : Stat)
    (nm : List Nat) (disk : List FiemapExtent) (o : AllocOracle) (st st1 : FmState)
    (hpre : fm_walk_entries sf sd blksz pre st = (true, st1))
    (hscan : (fm_scan_extents_alloc blksz o st1 sb nm disk).ok = false) :
    (fm_walk_entries sf sd blksz (pre ++ Ent.efile sb nm disk o :: rest) st).1 = false := by
  rw [walk_append sf sd blksz (Ent.efile sb nm disk o :: rest) pre st]
  simp [hpre, fm_walk_entries, hscan]

/-- A failed subdirectory aborts the entry loop of its parent. -/
theorem walk_nested_dir_fail (sf sd : Bool) (blksz : Nat) (pre rest : List Ent) (dsb : Stat)
    (nm : List Nat) (fsf fdf : Bool) (ddisk : List FiemapExtent) (da : AllocOracle)
    (sub : List Ent) (st st1 : FmState)
    (hpre : fm_walk_entries sf sd blksz pre st = (true, st1))
    (hdir : (fm_scan_directory sf sd blksz dsb nm fsf fdf ddisk da sub st1).1 = false) :
    (fm_walk_entries sf sd blksz (pre ++ Ent.edir dsb nm fsf fdf ddisk da sub :: rest) st).1
      = false := by
  rw [walk_append sf sd blksz (Ent.edir dsb nm fsf fdf ddisk da sub :: rest) pre st]
  rcases hres : fm_scan_directory sf sd blksz dsb nm fsf fdf ddisk da sub st1 with ⟨ok, st2⟩
  rw [hres] at hdir
  simp only at hdir
  subst hdir
  simp [hpre, fm_walk_entries, hres]

/-- A failed entry loop fails its directory. -/
theorem dir_fail_of_walk_fail (sf sd : Bool) (blksz : Nat) (dsb : Stat) (nm : List Nat)
    (fsf fdf : Bool) (ddisk : List FiemapExtent) (da : AllocOracle) (sub : List Ent)
    (st : FmState)
    (hw : (fm_walk_entries sf sd blksz sub st).1 = false) :
    (fm_scan_directory sf sd blksz dsb nm fsf fdf ddisk da sub st).1 = false := by
  by_cases h1 : (sf = true ∧ fsf = true)
  · simp [fm_scan_directory, h1]
  · by_cases h2 : fdf = true
    · simp [fm_scan_directory, h1, h2]
    · rcases hres : fm_walk_entries sf sd blksz sub st with ⟨ok, st1⟩
      rw [hres] at hw
      simp only at hw
      subst hw
      simp [fm_scan_directory, h1, h2, hres]

/-- In `-d` mode, a failed extent query on the directory itself fails
the directory. -/
theorem dir_fail_of_own_scan_fail (sf : Bool) (blksz : Nat) (dsb : Stat) (nm : List Nat)
    (fsf fdf : Bool) (ddisk : List FiemapExtent) (da : AllocOracle) (sub : List Ent)
    (st st1 : FmState)
    (hw : fm_walk_entries sf true blksz sub st = (true, st1))
    (hscan : (fm_scan_extents_alloc blksz da st1 dsb nm ddisk).ok = false) :
    (fm_scan_directory sf true blksz dsb nm fsf fdf ddisk da sub st).1 = false := by
  by_cases h1 : (sf = true ∧ fsf = true)
  · simp [fm_scan_directory, h1]
  · by_cases h2 : fdf = true
    · simp [fm_scan_directory, h1, h2]
    · simp [fm_scan_directory, h1, h2, hw, hscan]

/-- Claim C4: for every scan in which any stat, open, readdir, flush,
extent-query, or allocation operation fails, the failure propagates
through every recursive caller to `main`, the process exits non-zero,
and no report output is produced (`fm_print_results` is never
reached).  Conjuncts: injected stat/open/readdir/fsync/fdopendir and
name-allocation failures abort the walk and the directory scan; each
of the four allocation sites of `fm_scan_extents` (refined as
`fm_scan_extents_alloc`, which under the all-success oracle is exactly
`fm_scan_extents`) makes the call fail; a failing nested file scan —
whatever its cause — or a failing subdirectory aborts the enclosing
entry loop after any successful prefix; a failing entry loop or a
failing own-directory scan fails `fm_scan_directory`; and a failing
root directory scan, root file scan, root open or root stat makes
`main` exit `1` without reaching `fm_print_results`. -/
theorem c4_fail_fast (sf sd : Bool) :
    (∀ (blksz : Nat) (ents : List Ent) (st : FmState),
      entsHaveFail sf sd ents = true → (fm_walk_entries sf sd blksz ents st).1 = false) ∧
    (∀ (blksz : Nat) (dsb : Stat) (nm : List Nat) (fsf fdf : Bool)
        (ddisk : List FiemapExtent) (da : AllocOracle) (sub : List Ent) (st : FmState),
      ((sf && fsf) || fdf || (sd && da.fnFail) || entsHaveFail sf sd sub) = true →
      (fm_scan_directory sf sd blksz dsb nm fsf fdf ddisk da sub st).1 = false) ∧
    (∀ (blksz : Nat) (o : AllocOracle) (st : FmState) (sb : Stat) (ap : List Nat)
        (disk : List FiemapExtent), o.fnFail = true →
      (fm_scan_extents_alloc blksz o st sb ap disk).ok = false) ∧
    (∀ (blksz : Nat) (o : AllocOracle) (st : FmState) (sb : Stat) (ap : List Nat)
        (disk : List FiemapExtent), findInode st.fmInodes sb.st_ino = none →
      o.fiFail = true → (fm_scan_extents_alloc blksz o st sb ap disk).ok = false) ∧
    (∀ (blksz : Nat) (o : AllocOracle) (st : FmState) (sb : Stat) (ap : List Nat)
        (disk : List FiemapExtent), findInode st.fmInodes sb.st_ino = none →
      st.fmhExtentCount ≤ disk.length → o.reallocFail = true →
      (fm_scan_extents_alloc blksz o st sb ap disk).ok = false) ∧
    (∀ (blksz : Nat) (o : AllocOracle) (st : FmState) (sb : Stat) (ap : List Nat)
        (disk : List FiemapExtent) (j : Nat), findInode st.fmInodes sb.st_ino = none →
      o.feFailAt = some j → j < disk.length →
      (fm_scan_extents_alloc blksz o st sb ap disk).ok = false) ∧
    (∀ (blksz : Nat) (st : FmState) (sb : Stat) (ap : List Nat) (disk : List FiemapExtent),
      fm_scan_extents_alloc blksz allocOk st sb ap disk = fm_scan_extents blksz st sb ap disk) ∧
    (∀ (blksz : Nat) (pre rest : List Ent) (sb : Stat) (nm : List Nat)
        (disk : List FiemapExtent) (o : AllocOracle) (st st1 : FmState),
      fm_walk_entries sf sd blksz pre st = (true, st1) →
      (fm_scan_extents_alloc blksz o st1 sb nm disk).ok = false →
      (fm_walk_entries sf sd blksz (pre ++ Ent.efile sb nm disk o :: rest) st).1 = false) ∧
    (∀ (blksz : Nat) (pre rest : List Ent) (dsb : Stat) (nm : List Nat) (fsf fdf : Bool)
        (ddisk : List FiemapExtent) (da : AllocOracle) (sub : List Ent) (st st1 : FmState),
      fm_walk_entries sf sd blksz pre st = (true, st1) →
      (fm_scan_directory sf sd blksz dsb nm fsf fdf ddisk da sub st1).1 = false →
      (fm_walk_entries sf sd blksz (pre ++ Ent.edir dsb nm fsf fdf ddisk da sub :: rest) st).1
        = false) ∧
    (∀ (blksz : Nat) (dsb : Stat) (nm : List Nat) (fsf fdf : Bool)
        (ddisk : List FiemapExtent) (da : AllocOracle) (sub : List Ent) (st : FmState),
      (fm_walk_entries sf sd blksz sub st).1 = false →
      (fm_scan_directory sf sd blksz dsb nm fsf fdf ddisk da sub st).1 = false) ∧
    (∀ (blksz : Nat) (dsb : Stat) (nm : List Nat) (fsf fdf : Bool)
        (ddisk : List FiemapExtent) (da : AllocOracle) (sub : List Ent) (st st1 : FmState),
      sd = true → fm_walk_entries sf sd blksz sub st = (true, st1) →
      (fm_scan_extents_alloc blksz da st1 dsb nm ddisk).ok = false →
      (fm_scan_directory sf sd blksz dsb nm fsf fdf ddisk da sub st).1 = false) ∧
    (∀ (sb : Stat) (path : List Nat) (fsf fdf : Bool) (ddisk : List FiemapExtent)
        (da : AllocOracle) (ents : List Ent) (st : FmState),
      (fm_scan_directory sf sd sb.st_blksize sb path fsf fdf ddisk da ents st).1 = false →
      (main_run sf sd (RootArg.rdir sb path fsf fdf ddisk da ents) st).exitCode = 1 ∧
      (main_run sf sd (RootArg.rdir sb path fsf fdf ddisk da ents) st).printedReport = false) ∧
    (∀ (sb : Stat) (path : List Nat) (disk : List FiemapExtent) (o : AllocOracle)
        (st : FmState),
      (fm_scan_extents_alloc sb.st_blksize o st sb path disk).ok = false →
      (main_run sf sd (RootArg.rfile sb path disk o) st).exitCode = 1 ∧
      (main_run sf sd (RootArg.rfile sb path disk o) st).printedReport = false) ∧
    ((main_run sf sd RootArg.ropenFail initialState).exitCode = 1 ∧
      (main_run sf sd RootArg.ropenFail initialState).printedReport = false ∧
      (main_run sf sd RootArg.rstatFail initialState).exitCode = 1 ∧
      (main_run sf sd RootArg.rstatFail initialState).printedReport = false) := by
  refine ⟨fun blksz ents st h => walk_fail_of_hasFail sf sd blksz ents st h,
    fun blksz dsb nm fsf fdf ddisk da sub st h =>
      dir_fail_of_hasFail sf sd blksz dsb nm fsf fdf ddisk da sub st h,
    fun blksz o st sb ap disk h => scan_alloc_fnFail blksz o st sb ap disk h,
    fun blksz o st sb ap disk hnew h => scan_alloc_fiFail blksz o st sb ap disk hnew h,
    fun blksz o st sb ap disk hnew hg h =>
      scan_alloc_reallocFail blksz o st sb ap disk hnew hg h,
    fun blksz o st sb ap disk j hnew hfe hlt =>
      scan_alloc_feFail blksz o st sb ap disk j hnew hfe hlt,
    fun blksz st sb ap disk => fm_scan_extents_alloc_allocOk blksz st sb ap disk,
    fun blksz pre rest sb nm disk o st st1 hpre hscan =>
      walk_nested_file_fail sf sd blksz pre rest sb nm disk o st st1 hpre hscan,
    fun blksz pre rest dsb nm fsf fdf ddisk da sub st st1 hpre hdir =>
      walk_nested_dir_fail sf sd blksz pre rest dsb nm fsf fdf ddisk da sub st st1 hpre hdir,
    fun blksz dsb nm fsf fdf ddisk da sub st hw =>
      dir_fail_of_walk_fail sf sd blksz dsb nm fsf fdf ddisk da sub st hw,
    ?_, ?_, ?_, ⟨rfl, rfl, rfl, rfl⟩⟩
  · intro blksz dsb nm fsf fdf ddisk da sub st st1 hsd hw hscan
    subst hsd
    exact dir_fail_of_own_scan_fail sf blksz dsb nm fsf fdf ddisk da sub st st1 hw hscan
  · intro sb path fsf fdf ddisk da ents st h
    rcases hres : fm_scan_directory sf sd sb.st_blksize sb path fsf fdf ddisk da ents st
      with ⟨ok, st1⟩
    rw [hres] at h
    simp only at h
    subst h
    simp [main_run, hres]
  · intro sb path disk o st h
    simp [main_run, h]

/-- The spec's fail-fast scenario (a `readdir` failure on the third of
five entries makes `main` exit non-zero with no report), plus a nested
extent-query failure (the second file duplicates the first file's
physical offset) aborting the entry loop after a successful prefix,
plus a name-allocation failure making a scan fail. -/
theorem c4_fail_fast_witness :
    entsHaveFail false false
      [Ent.efile ⟨21, 1, FileMode.reg, 4096, 4096⟩ [101] [⟨4096, 4096, 1⟩] allocOk,
       Ent.efile ⟨22, 1, FileMode.reg, 4096, 4096⟩ [102] [⟨8192, 4096, 1⟩] allocOk,
       Ent.ereaddirFail,
       Ent.efile ⟨23, 1, FileMode.reg, 4096, 4096⟩ [103] [⟨12288, 4096, 1⟩] allocOk,
       Ent.efile ⟨24, 1, FileMode.reg, 4096, 4096⟩ [104] [⟨16384, 4096, 1⟩] allocOk] = true ∧
    (main_run false false
      (RootArg.rdir ⟨20, 1, FileMode.dir, 0, 4096⟩ [47] false false [] allocOk
        [Ent.efile ⟨21, 1, FileMode.reg, 4096, 4096⟩ [101] [⟨4096, 4096, 1⟩] allocOk,
         Ent.efile ⟨22, 1, FileMode.reg, 4096, 4096⟩ [102] [⟨8192, 4096, 1⟩] allocOk,
         Ent.ereaddirFail,
         Ent.efile ⟨23, 1, FileMode.reg, 4096, 4096⟩ [103] [⟨12288, 4096, 1⟩] allocOk,
         Ent.efile ⟨24, 1, FileMode.reg, 4096, 4096⟩ [104] [⟨16384, 4096, 1⟩] allocOk])
      initialState).exitCode = 1 ∧
    (main_run false false
      (RootArg.rdir ⟨20, 1, FileMode.dir, 0, 4096⟩ [47] false false [] allocOk
        [Ent.efile ⟨21, 1, FileMode.reg, 4096, 4096⟩ [101] [⟨4096, 4096, 1⟩] allocOk,
         Ent.efile ⟨22, 1, FileMode.reg, 4096, 4096⟩ [102] [⟨8192, 4096, 1⟩] allocOk,
         Ent.ereaddirFail,
         Ent.efile ⟨23, 1, FileMode.reg, 4096, 4096⟩ [103] [⟨12288, 4096, 1⟩] allocOk,
         Ent.efile ⟨24, 1, FileMode.reg, 4096, 4096⟩ [104] [⟨16384, 4096, 1⟩] allocOk])
      initialState).printedReport = false ∧
    fm_walk_entries false false 4096
        [Ent.efile ⟨31, 1, FileMode.reg, 4096, 4096⟩ [105] [⟨20480, 4096, 1⟩] allocOk]
        initialState
      = (true, (fm_scan_extents_alloc 4096 allocOk initialState
          ⟨31, 1, FileMode.reg, 4096, 4096⟩ [105] [⟨20480, 4096, 1⟩]).st) ∧
    (fm_scan_extents_alloc 4096 allocOk
        (fm_scan_extents_alloc 4096 allocOk initialState
          ⟨31, 1, FileMode.reg, 4096, 4096⟩ [105] [⟨20480, 4096, 1⟩]).st
        ⟨32, 1, FileMode.reg, 4096, 4096⟩ [106] [⟨20480, 4096, 1⟩]).ok = false ∧
    (fm_walk_entries false false 4096
        ([Ent.efile ⟨31, 1, FileMode.reg, 4096, 4096⟩ [105] [⟨20480, 4096, 1⟩] allocOk] ++
          Ent.efile ⟨32, 1, FileMode.reg, 4096, 4096⟩ [106] [⟨20480, 4096, 1⟩] allocOk :: [])
        initialState).1 = false ∧
    (⟨false, false, none, true⟩ : AllocOracle).fnFail = true ∧
    (fm_scan_extents_alloc 4096 ⟨false, false, none, true⟩ initialState
        ⟨33, 1, FileMode.reg, 4096, 4096⟩ [107] [⟨24576, 4096, 1⟩]).ok = false := by
  have hc := c4_fail_fast false false
  have hd := hc.2.1 (⟨20, 1, FileMode.dir, 0, 4096⟩ : Stat).st_blksize
    ⟨20, 1, FileMode.dir, 0, 4096⟩ [47] false false [] allocOk
    [Ent.efile ⟨21, 1, FileMode.reg, 4096, 4096⟩ [101] [⟨4096, 4096, 1⟩] allocOk,
     Ent.efile ⟨22, 1, FileMode.reg, 4096, 4096⟩ [102] [⟨8192, 4096, 1⟩] allocOk,
     Ent.ereaddirFail,
     Ent.efile ⟨23, 1, FileMode.reg, 4096, 4096⟩ [103] [⟨12288, 4096, 1⟩] allocOk,
     Ent.efile ⟨24, 1, FileMode.reg, 4096, 4096⟩ [104] [⟨16384, 4096, 1⟩] allocOk]
    initialState (by decide)
  have hmain := hc.2.2.2.2.2.2.2.2.2.2.2.1 ⟨20, 1, FileMode.dir, 0, 4096⟩ [47] false false []
    allocOk
    [Ent.efile ⟨21, 1, FileMode.reg, 4096, 4096⟩ [101] [⟨4096, 4096, 1⟩] allocOk,
     Ent.efile ⟨22, 1, FileMode.reg, 4096, 4096⟩ [102] [⟨8192, 4096, 1⟩] allocOk,
     Ent.ereaddirFail,
     Ent.efile ⟨23, 1, FileMode.reg, 4096, 4096⟩ [103] [⟨12288, 4096, 1⟩] allocOk,
     Ent.efile ⟨24, 1, FileMode.reg, 4096, 4096⟩ [104] [⟨16384, 4096, 1⟩] allocOk]
    initialState hd
  have hok31 : (fm_scan_extents_alloc 4096 allocOk initialState
      ⟨31, 1, FileMode.reg, 4096, 4096⟩ [105] [⟨20480, 4096, 1⟩]).ok = true := by decide
  have hstep : fm_walk_entries false false 4096
      [Ent.efile ⟨31, 1, FileMode.reg, 4096, 4096⟩ [105] [⟨20480, 4096, 1⟩] allocOk]
      initialState
    = (true, (fm_scan_extents_alloc 4096 allocOk initialState
        ⟨31, 1, FileMode.reg, 4096, 4096⟩ [105] [⟨20480, 4096, 1⟩]).st) := by
    simp only [fm_walk_entries, hok31, if_true]
  refine ⟨by decide, hmain.1, hmain.2, hstep, by decide, ?_, rfl, ?_⟩
  · exact hc.2.2.2.2.2.2.2.1 4096
      [Ent.efile ⟨31, 1, FileMode.reg, 4096, 4096⟩ [105] [⟨20480, 4096, 1⟩] allocOk] []
      ⟨32, 1, FileMode.reg, 4096, 4096⟩ [106] [⟨20480, 4096, 1⟩] allocOk initialState
      (fm_scan_extents_alloc 4096 allocOk initialState
        ⟨31, 1, FileMode.reg, 4096, 4096⟩ [105] [⟨20480, 4096, 1⟩]).st
      hstep (by decide)
  · exact hc.2.2.1 4096 ⟨false, false, none, true⟩ initialState
      ⟨33, 1, FileMode.reg, 4096, 4096⟩ [107] [⟨24576, 4096, 1⟩] rfl

end Filemap
